import Mathlib

/-!
Shallow embedding of the MVCC coordinator in `src/realm/group_shared.cpp`
(class `SharedGroup` with its anonymous-namespace helpers): the atomic
counter primitives, the version ring buffer (`Ringbuffer`), the shared
session header (`SharedInfo`), the read-lock manager, the transaction
state machine and the commit pipeline.

Modelling conventions:
* The code is multi-threaded; the embedding gives the sequential (single
  participant, no interleaving) semantics of each operation.  Atomic
  counters are `uint32_t` values modelled as `Nat` reduced `% 2^32` at
  every fetch-add/fetch-sub, exactly as the hardware would wrap them.
* External collaborators that are out of scope (the slab allocator, the
  `GroupWriter` serializer, replication, interprocess mutex internals,
  file I/O) appear as parameters of the operations that consume their
  results (e.g. `new_top_ref`/`new_file_size` produced by
  `GroupWriter::write_group`) or as booleans (mutex liveness probe).
* Retry loops whose body does not change the sequential state are given
  a small fuel; see the comment at `grabReadLockFuel` for why fuel 2 is
  exact for the sequential semantics.
-/

namespace RealmShared

/-- `2^32`, the modulus of the `uint32_t` arithmetic on ring-slot counters. -/
def W32 : Nat := 4294967296

/-- `2^64 - 1 = std::numeric_limits<uint64_t>::max()`, the sentinel version
number that requests the latest available snapshot. -/
def latestSentinel : Nat := 18446744073709551615

/-- Value semantics of `atomic_double_inc_if_even` (group_shared.cpp):
`fetch_add(2, acquire)`; if the observed prior value was odd, undo with
`fetch_sub(2, relaxed)` and report failure.  Returns (success, new value). -/
def atomic_double_inc_if_even (c : Nat) : Bool × Nat :=
  let after := (c + 2) % W32
  if c % 2 = 1 then (false, (after + (W32 - 2)) % W32) else (true, after)

/-- Value semantics of `atomic_double_dec`: `fetch_sub(2, release)`. -/
def atomic_double_dec (c : Nat) : Nat :=
  (c + (W32 - 2)) % W32

/-- Value semantics of `atomic_one_if_zero`: `fetch_add(1, acquire)`; if the
observed prior value was non-zero, undo with `fetch_sub(1, relaxed)` and
report failure.  Returns (success, new value). -/
def atomic_one_if_zero (c : Nat) : Bool × Nat :=
  let after := (c + 1) % W32
  if c ≠ 0 then (false, (after + (W32 - 1)) % W32) else (true, after)

/-- Value semantics of `atomic_dec`: `fetch_sub(1, release)`. -/
def atomic_dec (c : Nat) : Nat :=
  (c + (W32 - 1)) % W32

/-- `Ringbuffer::ReadCount`: one snapshot descriptor of the version ring.
`count` encodes `(readers << 1) | free_bit` in a `uint32_t`. -/
structure ReadCount where
  version : Nat
  filesize : Nat
  current_top : Nat
  count : Nat
  next : Nat
deriving DecidableEq, Repr

instance : Inhabited ReadCount := ⟨⟨0, 0, 0, 0, 0⟩⟩

/-- The nonblocking ring buffer of snapshot descriptors (`class Ringbuffer`).
`data` models the trailing `ReadCount data[]` area, which is extended in
place at run time. -/
structure Ringbuffer where
  entries : Nat
  put_pos : Nat
  old_pos : Nat
  data : List ReadCount
deriving DecidableEq, Repr

/-- `init_readers_size = 32`, the initial ring capacity. -/
def init_readers_size : Nat := 32

namespace Ringbuffer

/-- Reading `data[idx]`.  Beyond the mapped area this returns the zero
descriptor (freshly preallocated file space is zero-filled). -/
def get (rb : Ringbuffer) (idx : Nat) : ReadCount :=
  rb.data.getD idx default

/-- Store a whole descriptor at `idx`. -/
def setSlot (rb : Ringbuffer) (idx : Nat) (v : ReadCount) : Ringbuffer :=
  { rb with data := rb.data.set idx v }

/-- Store a new counter value into `data[idx].count`. -/
def setCount (rb : Ringbuffer) (idx : Nat) (c : Nat) : Ringbuffer :=
  rb.setSlot idx { rb.get idx with count := c }

/-- `last()`: `put_pos.load(acquire)`. -/
def last (rb : Ringbuffer) : Nat := rb.put_pos

/-- `get_last()`. -/
def get_last (rb : Ringbuffer) : ReadCount := rb.get rb.last

/-- `get_oldest()`: `get(old_pos)`. -/
def get_oldest (rb : Ringbuffer) : ReadCount := rb.get rb.old_pos

/-- `next()`: index following the newest published slot (`data[last()].next`). -/
def nextIdx (rb : Ringbuffer) : Nat := (rb.get rb.last).next

/-- `is_full()`: the slot after `put_pos` is `old_pos`. -/
def is_full (rb : Ringbuffer) : Bool := rb.nextIdx == rb.old_pos

/-- `get_num_entries()`. -/
def get_num_entries (rb : Ringbuffer) : Nat := rb.entries

/-- `use_next()`: `atomic_dec` on the new slot's count (release-clearing the
free bit), then `put_pos.store(next(), release)`. -/
def use_next (rb : Ringbuffer) : Ringbuffer :=
  let rb1 := rb.setCount rb.nextIdx (atomic_dec (rb.get rb.nextIdx).count)
  { rb1 with put_pos := rb1.nextIdx }

/-- The successor function of the ring: `i ↦ data[i].next`. -/
def step (rb : Ringbuffer) (i : Nat) : Nat := (rb.get i).next

/-- Following `next` pointers `k` times from slot `i`. -/
def followN (rb : Ringbuffer) (i : Nat) : Nat → Nat
  | 0 => i
  | k + 1 => rb.followN (rb.step i) k

/-- One test of the `cleanup()` loop body plus the recursion on fuel.
The C++ loop: while `old_pos != put_pos`, attempt `atomic_one_if_zero` on
the slot at `old_pos`; stop on failure, else advance `old_pos` to the
slot's `next`.  Each successful step turns a count `0` into `1`, and a
revisited slot therefore stops the loop, so `data.length + 1` steps of
fuel are always enough (see `cleanup`). -/
def cleanupFuel : Nat → Ringbuffer → Ringbuffer
  | 0, rb => rb
  | fuel + 1, rb =>
    if rb.old_pos ≠ rb.put_pos then
      let r := rb.get rb.old_pos
      let res := atomic_one_if_zero r.count
      let rb1 := rb.setCount rb.old_pos res.2
      if res.1 then
        cleanupFuel fuel { rb1 with old_pos := (rb1.get rb1.old_pos).next }
      else rb1
    else rb

/-- `cleanup()` (writer only, under the write mutex). -/
def cleanup (rb : Ringbuffer) : Ringbuffer :=
  cleanupFuel (rb.data.length + 1) rb

/-- The initialization loop shared by the `Ringbuffer` constructor and
`expand_to`: for `k` slots starting at index `i`, store
`{version = 1, count = 1, current_top = 0, filesize = 0, next = i + 1}`. -/
def initSlots (data : List ReadCount) (i : Nat) : Nat → List ReadCount
  | 0 => data
  | k + 1 =>
    initSlots (data.set i { version := 1, filesize := 0, current_top := 0, count := 1, next := i + 1 }) (i + 1) k

/-- The `Ringbuffer` constructor: 32 chained slots, all free (`count = 1`)
except slot 0 (`count = 0`, the seed snapshot), and the last slot linked
back to 0. -/
def init : Ringbuffer :=
  let base := initSlots (List.replicate init_readers_size default) 0 init_readers_size
  let d1 := base.set 0 { base.getD 0 default with count := 0 }
  let d2 := d1.set (init_readers_size - 1) { d1.getD (init_readers_size - 1) default with next := 0 }
  { entries := init_readers_size, put_pos := 0, old_pos := 0, data := d2 }

/-- `expand_to(new_entries)` (writer only, after file prealloc and remap —
modelled by zero-padding `data` up to `new_entries`): initialize the new
slots with `count = 1, next = i + 1`, link the last new slot to `old_pos`,
splice the chain in after `put_pos`, and publish the new `entries`. -/
def expand_to (rb : Ringbuffer) (new_entries : Nat) : Ringbuffer :=
  let grown := rb.data ++ List.replicate (new_entries - rb.data.length) default
  let inited := initSlots grown rb.entries (new_entries - rb.entries)
  let d1 := inited.set (new_entries - 1) { inited.getD (new_entries - 1) default with next := rb.old_pos }
  let d2 := d1.set rb.put_pos { d1.getD rb.put_pos default with next := rb.entries }
  { entries := new_entries, put_pos := rb.put_pos, old_pos := rb.old_pos, data := d2 }

/-- `reinit_last()` followed by the field stores of
`SharedInfo::init_versioning`: re-seed the newest slot for a fresh session. -/
def init_versioning (rb : Ringbuffer) (top_ref file_size initial_version : Nat) : Ringbuffer :=
  rb.setSlot rb.last
    { version := initial_version, filesize := file_size, current_top := top_ref
      count := 0, next := (rb.get rb.last).next }

/-- Well-formedness of the shared ring as maintained by the writer: the
`entries` counter matches the mapped area, the two positions and all the
`next` links stay inside it, and every counter is a `uint32_t` value. -/
def WF (rb : Ringbuffer) : Prop :=
  rb.entries = rb.data.length ∧
  rb.put_pos < rb.entries ∧
  rb.old_pos < rb.entries ∧
  (∀ i, i < rb.entries → (rb.get i).next < rb.entries) ∧
  (∀ i, i < rb.entries → (rb.get i).count < W32)

instance (rb : Ringbuffer) : Decidable rb.WF := by
  unfold WF; infer_instance

end Ringbuffer

/-- `g_shared_info_version = 8`. -/
def g_shared_info_version : Nat := 8

/-- The scalar part of `SharedGroup::SharedInfo` that the modelled
operations touch, plus the embedded ring buffer (`readers`).  Interprocess
mutexes and condvars are external collaborators and carry no state here. -/
structure SharedInfo where
  commit_in_critical_phase : Nat
  num_participants : Nat
  latest_version_number : Nat
  number_of_versions : Nat
  readers : Ringbuffer
deriving DecidableEq, Repr

/-- `SharedGroup::ReadLockInfo`: a reader's pin on one ring slot. -/
structure ReadLockInfo where
  m_version : Nat
  m_reader_idx : Nat
  m_top_ref : Nat
  m_file_size : Nat
deriving DecidableEq, Repr

/-- `SharedGroup::VersionID`: an exportable (version, ring index) token.
The default-constructed token carries the `latestSentinel` version. -/
structure VersionID where
  version : Nat
  index : Nat
deriving DecidableEq, Repr

/-- `VersionID()`: request the latest available snapshot. -/
def VersionID.latest : VersionID := ⟨latestSentinel, 0⟩

/-- `SharedGroup::TransactStage`. -/
inductive TransactStage
  | transact_Ready
  | transact_Reading
  | transact_Writing
deriving DecidableEq, Repr

/-- `LogicError::ErrorKind` values raised by this file. -/
inductive LogicErrorKind
  | wrong_transact_state
  | mixed_durability
  | mixed_history_type
deriving DecidableEq, Repr

/-- The error surface of the modelled operations. -/
inductive RealmError
  | logicError (kind : LogicErrorKind)
  | badVersion
  | incompatibleLockFile (msg : String)
  | invalidDatabase (msg : String)
  | runtimeError (msg : String)
deriving DecidableEq, Repr

/-- The per-`SharedGroup` (process-local) state together with the shared
session header it is attached to. -/
structure SGState where
  info : SharedInfo
  m_local_max_entry : Nat
  m_transact_stage : TransactStage
  m_read_lock : ReadLockInfo
  writeMutexHeld : Bool
  groupAttached : Bool
  fileAttached : Bool
deriving DecidableEq, Repr

namespace SGState

/-- Write a counter value into ring slot `i` of the shared header. -/
def setReaderCount (s : SGState) (i c : Nat) : SGState :=
  { s with info := { s.info with readers := s.info.readers.setCount i c } }

end SGState

/-- `grow_reader_mapping(index)`: remap if `index >= m_local_max_entry`,
refreshing `m_local_max_entry` from the shared header; report whether a
remap happened. -/
def growReaderMapping (s : SGState) (index : Nat) : Bool × SGState :=
  if s.m_local_max_entry ≤ index then
    (true, { s with m_local_max_entry := s.info.readers.get_num_entries })
  else (false, s)

/-- One iteration of a `grab_read_lock` retry loop. -/
inductive GrabStep
  | retry (s : SGState)
  | ok (s : SGState) (lock : ReadLockInfo)
  | bad (s : SGState)
  | stuck (s : SGState)
deriving DecidableEq

/-- One iteration of the LATEST branch of `grab_read_lock`: read
`put_pos`, grow the mapping (and retry) if needed, then optimistically pin
the slot; a pin failure (stale entry being recycled) retries the loop. -/
def grabLatestStep (s : SGState) : GrabStep :=
  let idx := s.info.readers.last
  match growReaderMapping s idx with
  | (true, s1) => .retry s1
  | (false, s1) =>
    let r := s1.info.readers.get idx
    match atomic_double_inc_if_even r.count with
    | (false, c1) => .retry (s1.setReaderCount idx c1)
    | (true, c1) =>
      .ok (s1.setReaderCount idx c1) ⟨r.version, idx, r.current_top, r.filesize⟩

/-- One iteration of the specific-version branch of `grab_read_lock`:
target `version_id.index`; while the pin fails, compare the slot against
`get_oldest()` — if it is not the oldest slot the entry has been recycled
and `BadVersion` is thrown, otherwise the inner `while` keeps probing (in
the sequential semantics: forever, `stuck`).  After a successful pin a
version mismatch releases the pin and throws `BadVersion`. -/
def grabSpecificStep (s : SGState) (version_id : VersionID) : GrabStep :=
  let idx := version_id.index
  match growReaderMapping s idx with
  | (true, s1) => .retry s1
  | (false, s1) =>
    let r := s1.info.readers.get idx
    match atomic_double_inc_if_even r.count with
    | (false, c1) =>
      let s2 := s1.setReaderCount idx c1
      if s2.info.readers.old_pos ≠ idx then .bad s2 else .stuck s2
    | (true, c1) =>
      let s2 := s1.setReaderCount idx c1
      if r.version ≠ version_id.version then
        .bad (s2.setReaderCount idx (atomic_double_dec (s2.info.readers.get idx).count))
      else .ok s2 ⟨r.version, idx, r.current_top, r.filesize⟩

/-- Result of `grab_read_lock`: success with the filled lock, a
`BadVersion` throw, or divergence of a retry loop. -/
inductive GrabResult
  | ok (s : SGState) (lock : ReadLockInfo)
  | bad (s : SGState)
  | diverge
deriving DecidableEq

/-- The `grab_read_lock` retry loops with fuel.  Sequentially, fuel 2 is
exact: a `retry` is caused either by a remap (which sets
`m_local_max_entry := entries`, so a second remap implies the state is a
fixed point of the loop body and the C++ loop really spins forever) or by
a failed optimistic pin in the LATEST branch (which restores the counter,
again a fixed point).  So after one retry the loop either decides or
diverges for real. -/
def grabReadLockFuel : Nat → SGState → VersionID → GrabResult
  | 0, _, _ => .diverge
  | fuel + 1, s, version_id =>
    if version_id.version = latestSentinel then
      match grabLatestStep s with
      | .retry s1 => grabReadLockFuel fuel s1 version_id
      | .ok s1 lock => .ok s1 lock
      | .bad s1 => .bad s1
      | .stuck _ => .diverge
    else
      match grabSpecificStep s version_id with
      | .retry s1 => grabReadLockFuel fuel s1 version_id
      | .ok s1 lock => .ok s1 lock
      | .bad s1 => .bad s1
      | .stuck _ => .diverge

/-- `grab_read_lock(read_lock, version_id)` (sequential semantics). -/
def grabReadLock (s : SGState) (version_id : VersionID) : GrabResult :=
  grabReadLockFuel 2 s version_id

/-- `release_read_lock(read_lock)`: grow the mapping to cover the lock's
index, then `atomic_double_dec` on that slot. -/
def releaseReadLock (s : SGState) (lock : ReadLockInfo) : SGState :=
  let s1 := (growReaderMapping s lock.m_reader_idx).2
  s1.setReaderCount lock.m_reader_idx
    (atomic_double_dec (s1.info.readers.get lock.m_reader_idx).count)

/-- Outcome of a `SharedGroup` member call: normal return carrying the
post-state, a thrown error carrying the state at the throw, or divergence
of an internal retry loop. -/
inductive Outcome (α : Type)
  | ok (s : SGState) (val : α)
  | err (e : RealmError) (s : SGState)
  | diverge
deriving DecidableEq

/-- `do_begin_read(version_id, writable)`: pin the snapshot into
`m_read_lock` and attach the group accessor to it (attachment is an
external collaborator, modelled as the `groupAttached` flag). -/
def doBeginRead (s : SGState) (version_id : VersionID) : Outcome Unit :=
  match grabReadLock s version_id with
  | .ok s1 lock => .ok { s1 with m_read_lock := lock, groupAttached := true } ()
  | .bad s1 => .err .badVersion s1
  | .diverge => .diverge

/-- `do_end_read()`: release `m_read_lock` and detach the group. -/
def doEndRead (s : SGState) : SGState :=
  { releaseReadLock s s.m_read_lock with groupAttached := false }

/-- `do_begin_write()`: take the write mutex; if
`commit_in_critical_phase` is set, release it and throw the
crash-detected runtime error. -/
def doBeginWrite (s : SGState) : Outcome Unit :=
  let s1 := { s with writeMutexHeld := true }
  if s1.info.commit_in_critical_phase ≠ 0 then
    .err (.runtimeError "Crash of other process detected, session restart required")
      { s1 with writeMutexHeld := false }
  else .ok s1 ()

/-- `do_end_write()`: release the write mutex. -/
def doEndWrite (s : SGState) : SGState :=
  { s with writeMutexHeld := false }

/-- `begin_read(version_id)`: Ready → Reading, else
`LogicError::wrong_transact_state`. -/
def beginRead (s : SGState) (version_id : VersionID) : Outcome Unit :=
  if s.m_transact_stage ≠ .transact_Ready then
    .err (.logicError .wrong_transact_state) s
  else
    match doBeginRead s version_id with
    | .ok s1 _ => .ok { s1 with m_transact_stage := .transact_Reading } ()
    | .err e s1 => .err e s1
    | .diverge => .diverge

/-- `end_read()`: Reading → Ready; a no-op from Ready; otherwise
`LogicError::wrong_transact_state`. -/
def endRead (s : SGState) : Outcome Unit :=
  if s.m_transact_stage = .transact_Ready then .ok s ()
  else if s.m_transact_stage ≠ .transact_Reading then
    .err (.logicError .wrong_transact_state) s
  else .ok { doEndRead s with m_transact_stage := .transact_Ready } ()

/-- `begin_write()`: Ready → Writing; `do_begin_write`, then bind to the
latest snapshot; on failure of the latter, release the write mutex and
propagate.  (No replication plugin is configured, so
`Replication::initiate_transact` is not modelled.) -/
def beginWrite (s : SGState) : Outcome Unit :=
  if s.m_transact_stage ≠ .transact_Ready then
    .err (.logicError .wrong_transact_state) s
  else
    match doBeginWrite s with
    | .err e s1 => .err e s1
    | .diverge => .diverge
    | .ok s1 _ =>
      match doBeginRead s1 VersionID.latest with
      | .ok s2 _ => .ok { s2 with m_transact_stage := .transact_Writing } ()
      | .err e s2 => .err e (doEndWrite s2)
      | .diverge => .diverge

/-- `low_level_commit(new_version)`: trim the ring (`cleanup`), note the
oldest live version, serialize the group (external: its outputs
`new_top_ref` and `new_file_size` are parameters), enter the critical
phase, grow the ring if it is full, publish the new slot via
`get_next()`/`use_next()`, leave the critical phase, and update the
version counters under the control mutex. -/
def lowLevelCommit (s : SGState) (new_version new_top_ref new_file_size : Nat) : SGState :=
  let s0 := (growReaderMapping s (s.info.readers.get_num_entries)).2
  let rb1 := s0.info.readers.cleanup
  let oldest_version := rb1.get_oldest.version
  -- GroupWriter::write_group / out.commit: external; durable write elided.
  let s1 := { s0 with info := { s0.info with readers := rb1, commit_in_critical_phase := 1 } }
  let expand := s1.info.readers.is_full
  let rb2 :=
    if expand then s1.info.readers.expand_to (s1.info.readers.get_num_entries + 32)
    else s1.info.readers
  let s2 :=
    if expand then { s1 with m_local_max_entry := s1.info.readers.get_num_entries + 32 }
    else s1
  let rb3 := rb2.setSlot rb2.nextIdx
    { rb2.get rb2.nextIdx with current_top := new_top_ref, filesize := new_file_size, version := new_version }
  let rb4 := rb3.use_next
  { s2 with info :=
    { s2.info with
        readers := rb4
        commit_in_critical_phase := 0
        number_of_versions := new_version - oldest_version + 1
        latest_version_number := new_version } }

/-- `do_commit()` without a replication plugin: the new version is the
current snapshot's version plus one, then `low_level_commit`. -/
def doCommit (s : SGState) (new_top_ref new_file_size : Nat) : Nat × SGState :=
  let current_version := s.info.readers.get_last.version
  let new_version := current_version + 1
  (new_version, lowLevelCommit s new_version new_top_ref new_file_size)

/-- `commit()`: Writing → Ready, else `LogicError::wrong_transact_state`;
run the commit pipeline, release the write mutex, release the read lock. -/
def commit (s : SGState) (new_top_ref new_file_size : Nat) : Outcome Nat :=
  if s.m_transact_stage ≠ .transact_Writing then
    .err (.logicError .wrong_transact_state) s
  else
    let res := doCommit s new_top_ref new_file_size
    .ok { doEndRead (doEndWrite res.2) with m_transact_stage := .transact_Ready } res.1

/-- `rollback()`: Writing → Ready; a no-op from Ready; otherwise
`LogicError::wrong_transact_state`.  (`Replication::abort_transact` is not
modelled: no replication plugin.) -/
def rollback (s : SGState) : Outcome Unit :=
  if s.m_transact_stage = .transact_Ready then .ok s ()
  else if s.m_transact_stage ≠ .transact_Writing then
    .err (.logicError .wrong_transact_state) s
  else .ok { doEndRead (doEndWrite s) with m_transact_stage := .transact_Ready } ()

/-- The state a `begin_write` call leaves behind (for iterating failed
attempts). -/
def beginWriteState (s : SGState) : SGState :=
  match beginWrite s with
  | .ok s1 _ => s1
  | .err _ s1 => s1
  | .diverge => s

/-- A freshly opened single-participant session: the seed ring of
`Ringbuffer::init` re-seeded by `init_versioning` is exactly the
constructor state here (slot 0 already carries `version = 1, top_ref = 0,
file_size = 0, count = 0`), so the constructor ring doubles as the
post-open ring. -/
def exampleState : SGState :=
  { info :=
      { commit_in_critical_phase := 0
        num_participants := 1
        latest_version_number := 1
        number_of_versions := 1
        readers := Ringbuffer.init }
    m_local_max_entry := 32
    m_transact_stage := .transact_Ready
    m_read_lock := ⟨1, 0, 0, 0⟩
    writeMutexHeld := false
    groupAttached := false
    fileAttached := true }

/-- `exampleState` after a writer died inside the critical phase of a
commit (`commit_in_critical_phase` left at 1). -/
def exampleCritState : SGState :=
  { exampleState with info := { exampleState.info with commit_in_critical_phase := 1 } }

/-- `exampleState` with a second participant registered. -/
def exampleMultiState : SGState :=
  { exampleState with info := { exampleState.info with num_participants := 2 } }

/-- A small mid-session ring: slot 0 is an old unreferenced snapshot
(count 0), slot 1 at `put_pos` is the current snapshot pinned by one
reader (count 2), slots 2 and 3 are free (count 1). -/
def exampleRing4 : Ringbuffer :=
  { entries := 4
    put_pos := 1
    old_pos := 0
    data :=
      [ { version := 1, filesize := 16, current_top := 8, count := 0, next := 1 }
      , { version := 2, filesize := 32, current_top := 24, count := 2, next := 2 }
      , { version := 1, filesize := 0, current_top := 0, count := 1, next := 3 }
      , { version := 1, filesize := 0, current_top := 0, count := 1, next := 0 } ] }

/-- A degenerate one-slot ring (full: the slot links to itself, which is
both `put_pos` and `old_pos`), used to exercise `expand_to`. -/
def exampleRing1 : Ringbuffer :=
  { entries := 1
    put_pos := 0
    old_pos := 0
    data := [ { version := 5, filesize := 64, current_top := 40, count := 2, next := 0 } ] }

/-- What one pass of the `do_open` loop decides after taking the shared
file lock. -/
inductive OpenStep
  | retry
  | fail (e : RealmError)
  | proceed
deriving DecidableEq, Repr

/-- The `.lock` file contents that the compatibility checks of `do_open`
read. -/
structure LockFileImage where
  file_size : Nat
  init_complete : Nat
  shared_info_version : Nat
  size_of_mutex : Nat
  size_of_condvar : Nat
deriving DecidableEq, Repr

/-- The validation sequence of `SharedGroup::do_open` between acquiring the
shared file lock and entering the control-mutex section.  `structSize` is
the platform's `sizeof(SharedInfo)`, `mutexSize`/`condvarSize` the sizes of
the embedded interprocess primitives, and `controlMutexValid` the result of
the external mutex liveness probe.  `continue` (restart of the open loop
from the exclusive-lock attempt) is `.retry`. -/
def openCheckLockFile (structSize mutexSize condvarSize : Nat) (controlMutexValid : Bool)
    (f : LockFileImage) : OpenStep :=
  -- info_size starts at sizeof(SharedInfo) and is capped by the file size;
  -- an empty file retries before anything is mapped.
  let info_size := if f.file_size < structSize then f.file_size else structSize
  if f.file_size < structSize ∧ f.file_size = 0 then .retry
  else if f.init_complete = 0 then .retry
  else if info_size < structSize then .fail (.incompatibleLockFile "Info size doesn't match")
  else if f.shared_info_version ≠ g_shared_info_version then
    .fail (.incompatibleLockFile "Shared info version doesn't match")
  else if f.size_of_mutex ≠ mutexSize then .fail (.incompatibleLockFile "Mutex size doesn't match")
  else if f.size_of_condvar ≠ condvarSize then
    .fail (.incompatibleLockFile "Condtion var size doesn't match")
  else if ¬ controlMutexValid then .fail (.incompatibleLockFile "Control mutex is invalid.")
  else .proceed

/-- Observable file-system actions of `compact()` once the preconditions
pass. -/
inductive CompactEffect
  | removeTmp
  | writeTmpFile
  | syncTmp
  | renameOverDb
  | closeAndReopen
deriving DecidableEq, Repr

/-- The net effect of `close()` immediately followed by `do_open` on the
same session (the tail of a successful `compact()`): the participant
leaves and rejoins, the transaction stage is Ready, the group accessor is
detached and the local mapping is refreshed. -/
def compactCloseReopen (s : SGState) : SGState :=
  { s with
      m_transact_stage := .transact_Ready
      groupAttached := false
      m_local_max_entry := s.info.readers.get_num_entries }

/-- `compact()`: requires an attached `SharedGroup` in the Ready stage;
under the control mutex, returns `false` without further action when more
than one participant is registered; otherwise rewrites the database file
and re-opens it.  The list records the file-system effects performed. -/
def compact (s : SGState) : Outcome Bool × List CompactEffect :=
  if ¬ s.fileAttached then
    (.err (.runtimeError "compact must be done on an open/attached SharedGroup") s, [])
  else if s.m_transact_stage ≠ .transact_Ready then
    (.err (.runtimeError "compact is not supported whithin a transaction") s, [])
  else if 1 < s.info.num_participants then (.ok s false, [])
  else
    -- File::try_remove(tmp_path); begin_read(); write + sync + rename the
    -- tmp file; end_read(); detach; close(); do_open().
    match beginRead s VersionID.latest with
    | .diverge => (.diverge, [.removeTmp])
    | .err e s1 => (.err e s1, [.removeTmp])
    | .ok s1 _ =>
      match endRead s1 with
      | .diverge => (.diverge, [.removeTmp, .writeTmpFile, .syncTmp, .renameOverDb])
      | .err e s2 => (.err e s2, [.removeTmp, .writeTmpFile, .syncTmp, .renameOverDb])
      | .ok s2 _ =>
        (.ok (compactCloseReopen s2) true,
         [.removeTmp, .writeTmpFile, .syncTmp, .renameOverDb, .closeAndReopen])

/-! ### Basic list and modular-arithmetic lemmas -/

theorem list_getD_set_eq {α : Type} (l : List α) (i : Nat) (v d : α) (h : i < l.length) :
    (l.set i v).getD i d = v := by
  rw [List.getD_eq_getElem?_getD, List.getElem?_set_self h, Option.getD_some]

theorem list_getD_set_ne {α : Type} (l : List α) (i j : Nat) (v d : α) (h : i ≠ j) :
    (l.set i v).getD j d = l.getD j d := by
  rw [List.getD_eq_getElem?_getD, List.getElem?_set_ne h, ← List.getD_eq_getElem?_getD]

theorem list_set_getD_self {α : Type} (l : List α) (i : Nat) (d : α) :
    l.set i (l.getD i d) = l := by
  rcases Nat.lt_or_ge i l.length with h | h
  · apply List.ext_getElem?
    intro n
    rw [List.getElem?_set]
    rcases eq_or_ne i n with rfl | hne
    · simp only [if_pos rfl, if_pos h, List.getD_eq_getElem?_getD]
      have := List.getElem?_eq_getElem (l := l) h
      simp [this]
    · simp [hne]
  · rw [List.set_eq_of_length_le h]

theorem list_getD_append_replicate {α : Type} (l : List α) (k i : Nat) (d : α) :
    (l ++ List.replicate k d).getD i d = l.getD i d := by
  rcases Nat.lt_or_ge i l.length with h | h
  · rw [List.getD_eq_getElem?_getD, List.getElem?_append_left h, ← List.getD_eq_getElem?_getD]
  · rw [List.getD_eq_getElem?_getD, List.getElem?_append_right h, List.getD_eq_getElem?_getD,
      List.getElem?_eq_none h, List.getElem?_replicate]
    by_cases h2 : i - l.length < k <;> simp [h2]

theorem wrap_undo (c a : Nat) (hc : c < W32) (ha : a ≤ W32) :
    ((c + a) % W32 + (W32 - a)) % W32 = c := by
  rw [Nat.mod_add_mod, Nat.add_assoc, Nat.add_sub_cancel' ha, Nat.add_mod_right]
  exact Nat.mod_eq_of_lt hc

theorem double_inc_even (c : Nat) (h : c % 2 = 0) :
    atomic_double_inc_if_even c = (true, (c + 2) % W32) := by
  simp [atomic_double_inc_if_even, h]

theorem double_inc_odd (c : Nat) (hc : c < W32) (h : c % 2 = 1) :
    atomic_double_inc_if_even c = (false, c) := by
  have hw := wrap_undo c 2 hc (by norm_num [W32])
  simp [atomic_double_inc_if_even, h, hw]

theorem double_dec_undo (c : Nat) (hc : c < W32) :
    atomic_double_dec ((c + 2) % W32) = c := by
  simpa [atomic_double_dec] using wrap_undo c 2 hc (by norm_num [W32])

theorem one_if_zero_zero : atomic_one_if_zero 0 = (true, 1) := by
  simp [atomic_one_if_zero]
  norm_num [W32]

theorem one_if_zero_pos (c : Nat) (hc : c < W32) (h : c ≠ 0) :
    atomic_one_if_zero c = (false, c) := by
  have hw := wrap_undo c 1 hc (by norm_num [W32])
  simp [atomic_one_if_zero, h, hw]

/-! ### Ring-buffer structural lemmas -/

namespace Ringbuffer

theorem setCount_entries (rb : Ringbuffer) (i c : Nat) : (rb.setCount i c).entries = rb.entries := rfl

theorem setCount_put_pos (rb : Ringbuffer) (i c : Nat) : (rb.setCount i c).put_pos = rb.put_pos := rfl

theorem setCount_old_pos (rb : Ringbuffer) (i c : Nat) : (rb.setCount i c).old_pos = rb.old_pos := rfl

theorem setCount_length (rb : Ringbuffer) (i c : Nat) :
    (rb.setCount i c).data.length = rb.data.length := by
  simp [setCount, setSlot]

theorem get_setCount_eq (rb : Ringbuffer) (i c : Nat) (h : i < rb.data.length) :
    (rb.setCount i c).get i = { rb.get i with count := c } := by
  simp only [setCount, setSlot, get]
  exact list_getD_set_eq _ _ _ _ h

theorem get_setCount_ne (rb : Ringbuffer) (i j c : Nat) (h : i ≠ j) :
    (rb.setCount i c).get j = rb.get j := by
  simp only [setCount, setSlot, get]
  exact list_getD_set_ne _ _ _ _ _ h

theorem setCount_self (rb : Ringbuffer) (i : Nat) :
    rb.setCount i ((rb.get i).count) = rb := by
  show { rb with data := rb.data.set i { rb.get i with count := (rb.get i).count } } = rb
  have h1 : { rb.get i with count := (rb.get i).count } = rb.get i := rfl
  rw [h1, get, list_set_getD_self]

theorem setCount_setCount (rb : Ringbuffer) (i c1 c2 : Nat) :
    (rb.setCount i c1).setCount i c2 = rb.setCount i c2 := by
  cases rb with
  | mk e p o d =>
    simp only [setCount, setSlot, get]
    congr 1
    rw [List.set_set]
    rcases Nat.lt_or_ge i d.length with h | h
    · rw [list_getD_set_eq d i _ default h]
    · rw [List.set_eq_of_length_le h]
      exact (List.set_eq_of_length_le h).symm

/-- The counter of every slot is below `W32` in a well-formed ring, also
beyond the mapped area (the default descriptor has count 0). -/
theorem count_lt_of_WF (rb : Ringbuffer) (hwf : rb.WF) (i : Nat) : (rb.get i).count < W32 := by
  rcases Nat.lt_or_ge i rb.entries with h | h
  · exact hwf.2.2.2.2 i h
  · have hlen : rb.data.length ≤ i := by rw [← hwf.1]; exact h
    have : rb.data.getD i default = default := by
      rw [List.getD_eq_getElem?_getD, List.getElem?_eq_none hlen]; rfl
    show (rb.data.getD i default).count < W32
    rw [this]
    decide

theorem followN_congr (a b : Ringbuffer) (h : ∀ i, (a.get i).next = (b.get i).next) :
    ∀ (k i : Nat), a.followN i k = b.followN i k := by
  intro k
  induction k with
  | zero => intro i; rfl
  | succ k ih =>
    intro i
    show a.followN (a.step i) k = b.followN (b.step i) k
    rw [show a.step i = b.step i from h i, ih]

theorem followN_succ_back (rb : Ringbuffer) (i : Nat) :
    ∀ m, rb.followN i (m + 1) = rb.step (rb.followN i m) := by
  intro m
  induction m generalizing i with
  | zero => rfl
  | succ m ih =>
    show rb.followN (rb.step i) (m + 1) = _
    rw [ih (rb.step i)]; rfl

theorem followN_add (rb : Ringbuffer) (i a b : Nat) :
    rb.followN i (a + b) = rb.followN (rb.followN i a) b := by
  induction a generalizing i with
  | zero => rw [Nat.zero_add]; rfl
  | succ a ih =>
    rw [Nat.succ_add]
    show rb.followN (rb.step i) (a + b) = _
    rw [ih (rb.step i)]; rfl

/-- From any in-range start, every node along the `next` chain of a ring
with in-range links stays in range. -/
theorem followN_lt (rb : Ringbuffer) (hnext : ∀ i, i < rb.entries → (rb.get i).next < rb.entries) :
    ∀ (m i : Nat), i < rb.entries → rb.followN i m < rb.entries := by
  intro m
  induction m with
  | zero => intro i hi; exact hi
  | succ m ih =>
    intro i hi
    exact ih (rb.step i) (hnext i hi)

end Ringbuffer

/-! ### C7: the optimistic counter primitives -/

/-- C7 (counterexample): at counter value `2^32 - 2` (an even value, so the
pin succeeds), `atomic_double_inc_if_even` wraps the `uint32_t` around to
0 instead of increasing it by exactly 2. -/
theorem C7_counterexample :
    atomic_double_inc_if_even 4294967294 = (true, 0) ∧ (0 : Nat) ≠ 4294967294 + 2 := by
  constructor
  · simp [atomic_double_inc_if_even, W32]
  · decide

/-- C7 (amended): for every `uint32_t` counter value, a failed
`atomic_double_inc_if_even` (odd prior value: free bit set) undoes its
increment and leaves the value unchanged; a successful one adds exactly 2
modulo `2^32` — exactly 2 whenever no wraparound occurs.  A failed
`atomic_one_if_zero` (non-zero prior value) likewise leaves the value
unchanged, and a successful one (prior value 0) yields exactly 1. -/
theorem C7_counter_roundtrip (c : Nat) (hc : c < W32) :
    (c % 2 = 1 → atomic_double_inc_if_even c = (false, c)) ∧
    (c % 2 = 0 → atomic_double_inc_if_even c = (true, (c + 2) % W32)) ∧
    (c % 2 = 0 → c + 2 < W32 → atomic_double_inc_if_even c = (true, c + 2)) ∧
    (c ≠ 0 → atomic_one_if_zero c = (false, c)) ∧
    (atomic_one_if_zero 0 = (true, 1)) := by
  refine ⟨fun h => double_inc_odd c hc h, fun h => double_inc_even c h, ?_, ?_, one_if_zero_zero⟩
  · intro h hlt
    rw [double_inc_even c h, Nat.mod_eq_of_lt hlt]
  · intro h
    exact one_if_zero_pos c hc h

/-- C7 (witness): the amended statement evaluated at counter value 6. -/
theorem C7_witness :
    (6 : Nat) < W32 ∧ atomic_double_inc_if_even 6 = (true, 8) ∧ atomic_one_if_zero 6 = (false, 6) := by
  refine ⟨by norm_num [W32], ?_, ?_⟩
  · exact (C7_counter_roundtrip 6 (by norm_num [W32])).2.2.1 (by norm_num) (by norm_num [W32])
  · exact (C7_counter_roundtrip 6 (by norm_num [W32])).2.2.2.1 (by norm_num)

/-! ### C9: open-protocol retry conditions -/

/-- C9 (counterexample): a lock file of size 4 — smaller than the 8-byte
frozen prefix — whose `init_complete` byte reads 1 makes `do_open` throw
`IncompatibleLockFile` instead of dropping the shared lock and retrying
(here with `sizeof(SharedInfo) = 968`; any size above the prefix behaves
the same). -/
theorem C9_counterexample :
    openCheckLockFile 968 8 8 true ⟨4, 1, 8, 8, 8⟩ =
      .fail (.incompatibleLockFile "Info size doesn't match") ∧
    openCheckLockFile 968 8 8 true ⟨4, 1, 8, 8, 8⟩ ≠ .retry := by
  constructor <;> decide

/-- C9 (amended): the open protocol drops the shared file lock and retries
from the exclusive-lock step exactly when the lock file is empty or its
`init_complete` byte is 0; a nonzero file shorter than the full
`SharedInfo` structure whose `init_complete` byte is 1 — in particular one
shorter than the frozen prefix — instead raises `IncompatibleLockFile`. -/
theorem C9_open_retry (structSize mutexSize condvarSize : Nat) (valid : Bool)
    (f : LockFileImage) (hs : 0 < structSize) :
    ((f.file_size = 0 ∨ f.init_complete = 0) →
      openCheckLockFile structSize mutexSize condvarSize valid f = .retry) ∧
    (f.file_size ≠ 0 → f.file_size < structSize → f.init_complete ≠ 0 →
      openCheckLockFile structSize mutexSize condvarSize valid f =
        .fail (.incompatibleLockFile "Info size doesn't match")) := by
  constructor
  · intro h
    by_cases h0 : f.file_size = 0
    · simp [openCheckLockFile, h0, hs]
    · rcases h with h | h
      · exact absurd h h0
      · simp [openCheckLockFile, h0, h]
  · intro h0 hlt hinit
    have hcap : (if f.file_size < structSize then f.file_size else structSize) = f.file_size :=
      if_pos hlt
    simp [openCheckLockFile, h0, hinit, hcap, hlt]

/-- C9 (witness): the amended retry rule evaluated on an empty lock file
and on an uninitialized one. -/
theorem C9_open_retry_witness :
    openCheckLockFile 968 8 8 true ⟨0, 0, 8, 8, 8⟩ = .retry ∧
    openCheckLockFile 968 8 8 true ⟨968, 0, 8, 8, 8⟩ = .retry := by
  constructor
  · exact (C9_open_retry 968 8 8 true ⟨0, 0, 8, 8, 8⟩ (by norm_num)).1 (Or.inl rfl)
  · exact (C9_open_retry 968 8 8 true ⟨968, 0, 8, 8, 8⟩ (by norm_num)).1 (Or.inr rfl)

/-! ### C10: compaction refuses a shared session -/

/-- C10: `compact()` on an attached `SharedGroup` in the Ready stage with
more than one registered participant returns `false`, leaves the state
(including the transaction stage and the session header) untouched and
performs no file-system effect: no temporary file, no rename, no
reopen. -/
theorem C10_compact_multi_participant (s : SGState)
    (h1 : s.fileAttached = true) (h2 : s.m_transact_stage = .transact_Ready)
    (h3 : 1 < s.info.num_participants) :
    compact s = (.ok s false, []) := by
  simp [compact, h1, h2, h3]

/-- C10 (witness): `compact` on the two-participant example session. -/
theorem C10_witness : compact exampleMultiState = (.ok exampleMultiState false, []) :=
  C10_compact_multi_participant exampleMultiState rfl rfl (by norm_num [exampleMultiState, exampleState])

/-! ### C8: the transaction state machine gates -/

/-- C8: `begin_read`, `begin_write`, `commit`, `end_read` and `rollback`
raise `LogicError::wrong_transact_state` (leaving the state unchanged)
whenever called from a stage where the transition is illegal, while
`end_read` and `rollback` called from Ready return immediately as
no-ops. -/
theorem C8_transact_state_machine (s : SGState) (version_id : VersionID)
    (new_top_ref new_file_size : Nat) :
    (beginRead { s with m_transact_stage := .transact_Reading } version_id =
      .err (.logicError .wrong_transact_state) { s with m_transact_stage := .transact_Reading }) ∧
    (beginRead { s with m_transact_stage := .transact_Writing } version_id =
      .err (.logicError .wrong_transact_state) { s with m_transact_stage := .transact_Writing }) ∧
    (beginWrite { s with m_transact_stage := .transact_Reading } =
      .err (.logicError .wrong_transact_state) { s with m_transact_stage := .transact_Reading }) ∧
    (beginWrite { s with m_transact_stage := .transact_Writing } =
      .err (.logicError .wrong_transact_state) { s with m_transact_stage := .transact_Writing }) ∧
    (commit { s with m_transact_stage := .transact_Ready } new_top_ref new_file_size =
      .err (.logicError .wrong_transact_state) { s with m_transact_stage := .transact_Ready }) ∧
    (commit { s with m_transact_stage := .transact_Reading } new_top_ref new_file_size =
      .err (.logicError .wrong_transact_state) { s with m_transact_stage := .transact_Reading }) ∧
    (endRead { s with m_transact_stage := .transact_Writing } =
      .err (.logicError .wrong_transact_state) { s with m_transact_stage := .transact_Writing }) ∧
    (endRead { s with m_transact_stage := .transact_Ready } =
      .ok { s with m_transact_stage := .transact_Ready } ()) ∧
    (rollback { s with m_transact_stage := .transact_Reading } =
      .err (.logicError .wrong_transact_state) { s with m_transact_stage := .transact_Reading }) ∧
    (rollback { s with m_transact_stage := .transact_Ready } =
      .ok { s with m_transact_stage := .transact_Ready } ()) := by
  refine ⟨?_, ?_, ?_, ?_, ?_, ?_, ?_, ?_, ?_, ?_⟩ <;>
    simp [beginRead, beginWrite, commit, endRead, rollback]

/-! ### C4: the critical-phase gate on begin_write -/

/-- C4: from Ready with `commit_in_critical_phase = 1`, `begin_write` takes
the write mutex, releases it again and throws the runtime error about a
detected crash, with no other state change; and since nothing ever clears
the flag, every subsequent `begin_write` fails the same way. -/
theorem C4_begin_write_crash (s : SGState)
    (h1 : s.m_transact_stage = .transact_Ready)
    (h2 : s.info.commit_in_critical_phase = 1)
    (h3 : s.writeMutexHeld = false) :
    beginWrite s =
      .err (.runtimeError "Crash of other process detected, session restart required") s ∧
    ∀ n : Nat, beginWrite (beginWriteState^[n] s) =
      .err (.runtimeError "Crash of other process detected, session restart required") s := by
  have hself : ({ s with writeMutexHeld := false } : SGState) = s := by
    cases s; simp_all
  have hfirst : beginWrite s =
      .err (.runtimeError "Crash of other process detected, session restart required") s := by
    have hstage : ¬ s.m_transact_stage ≠ TransactStage.transact_Ready := by simp [h1]
    simp only [beginWrite, hstage, if_false, doBeginWrite, h2]
    norm_num
    exact hself
  refine ⟨hfirst, fun n => ?_⟩
  have hfix : beginWriteState s = s := by
    simp [beginWriteState, hfirst]
  rw [Function.iterate_fixed hfix n]
  exact hfirst

/-- C4 (witness): the gate evaluated on the example session whose previous
writer died in the critical phase. -/
theorem C4_witness :
    exampleCritState.info.commit_in_critical_phase = 1 ∧
    beginWrite exampleCritState =
      .err (.runtimeError "Crash of other process detected, session restart required")
        exampleCritState :=
  ⟨rfl, (C4_begin_write_crash exampleCritState rfl rfl rfl).1⟩

/-! ### Read-lock manager lemmas (for C2 and C3) -/

theorem SGState.setReaderCount_readers (s : SGState) (i c : Nat) :
    (s.setReaderCount i c).info.readers = s.info.readers.setCount i c := rfl

theorem SGState.setReaderCount_setReaderCount (s : SGState) (i a b : Nat) :
    (s.setReaderCount i a).setReaderCount i b = s.setReaderCount i b := by
  cases s with
  | mk info lme st rl wm ga fa =>
    cases info with
    | mk cp np lv nv rd =>
      simp only [SGState.setReaderCount]
      rw [Ringbuffer.setCount_setCount]

theorem SGState.setReaderCount_self (s : SGState) (i : Nat) :
    s.setReaderCount i ((s.info.readers.get i).count) = s := by
  cases s with
  | mk info lme st rl wm ga fa =>
    cases info with
    | mk cp np lv nv rd =>
      simp only [SGState.setReaderCount]
      rw [Ringbuffer.setCount_self]

/-- A successful LATEST pin: with the newest slot inside the local mapping
and its count even, one loop iteration pins it. -/
theorem grabLatestStep_success (s : SGState)
    (hloc : s.info.readers.put_pos < s.m_local_max_entry)
    (heven : (s.info.readers.get s.info.readers.put_pos).count % 2 = 0) :
    grabLatestStep s =
      .ok (s.setReaderCount s.info.readers.put_pos
            (((s.info.readers.get s.info.readers.put_pos).count + 2) % W32))
        ⟨(s.info.readers.get s.info.readers.put_pos).version, s.info.readers.put_pos,
          (s.info.readers.get s.info.readers.put_pos).current_top,
          (s.info.readers.get s.info.readers.put_pos).filesize⟩ := by
  have hno : ¬ s.m_local_max_entry ≤ s.info.readers.put_pos := Nat.not_le.mpr hloc
  simp only [grabLatestStep, growReaderMapping, Ringbuffer.last, hno, if_false,
    double_inc_even _ heven]

/-- Releasing a pin just taken on slot `p` restores the original state. -/
theorem release_after_pin (s : SGState) (p : Nat)
    (hloc : p < s.m_local_max_entry)
    (hlen : p < s.info.readers.data.length)
    (hcW : (s.info.readers.get p).count < W32)
    (version top fs : Nat) :
    releaseReadLock (s.setReaderCount p (((s.info.readers.get p).count + 2) % W32))
      ⟨version, p, top, fs⟩ = s := by
  have hno : ¬ (s.setReaderCount p (((s.info.readers.get p).count + 2) % W32)).m_local_max_entry
      ≤ p := Nat.not_le.mpr hloc
  simp only [releaseReadLock, growReaderMapping, hno, if_false]
  have hget : ((s.setReaderCount p (((s.info.readers.get p).count + 2) % W32)).info.readers.get p)
      = { s.info.readers.get p with count := ((s.info.readers.get p).count + 2) % W32 } := by
    rw [SGState.setReaderCount_readers]
    exact Ringbuffer.get_setCount_eq _ _ _ hlen
  rw [hget]
  show (s.setReaderCount p _).setReaderCount p
      (atomic_double_dec (((s.info.readers.get p).count + 2) % W32)) = s
  rw [double_dec_undo _ hcW, SGState.setReaderCount_setReaderCount, SGState.setReaderCount_self]

/-- A decisive first iteration determines `grabReadLockFuel` at any
positive fuel (LATEST branch). -/
theorem grabFuel_latest_of_ok (fuel : Nat) (s s1 : SGState) (lock : ReadLockInfo)
    (h : grabLatestStep s = .ok s1 lock) :
    grabReadLockFuel (fuel + 1) s VersionID.latest = .ok s1 lock := by
  simp [grabReadLockFuel, VersionID.latest, h]

/-! ### C2: a balanced LATEST pin/unpin pair is a no-op -/

/-- C2: whenever `grab_read_lock(LATEST)` succeeds (in a well-formed ring
the newest slot is live, i.e. its count is even, so it does succeed), it
pins exactly the `put_pos` slot, raising its count by 2; the matching
`release_read_lock` brings the count back to its prior value and the
balanced pair leaves every observable field of the shared state — and the
rest of the `SharedGroup` — unchanged. -/
theorem C2_grab_release_noop (s : SGState)
    (hwf : s.info.readers.WF)
    (heven : (s.info.readers.get s.info.readers.put_pos).count % 2 = 0) :
    ∃ s1 lock,
      grabReadLock s VersionID.latest = .ok s1 lock ∧
      lock.m_reader_idx = s.info.readers.put_pos ∧
      lock.m_version = (s.info.readers.get s.info.readers.put_pos).version ∧
      (s1.info.readers.get lock.m_reader_idx).count =
        ((s.info.readers.get s.info.readers.put_pos).count + 2) % W32 ∧
      (∀ i, i ≠ lock.m_reader_idx → s1.info.readers.get i = s.info.readers.get i) ∧
      (releaseReadLock s1 lock).info = s.info ∧
      (releaseReadLock s1 lock).m_transact_stage = s.m_transact_stage ∧
      (releaseReadLock s1 lock).m_read_lock = s.m_read_lock ∧
      (releaseReadLock s1 lock).writeMutexHeld = s.writeMutexHeld ∧
      (releaseReadLock s1 lock).groupAttached = s.groupAttached ∧
      (releaseReadLock s1 lock).fileAttached = s.fileAttached := by
  have hlen : s.info.readers.put_pos < s.info.readers.data.length := by
    rw [← hwf.1]; exact hwf.2.1
  have hcW : (s.info.readers.get s.info.readers.put_pos).count < W32 :=
    hwf.2.2.2.2 _ hwf.2.1
  rcases Nat.lt_or_ge s.info.readers.put_pos s.m_local_max_entry with hloc | hloc
  · -- the newest slot is already inside the local mapping: one iteration
    refine ⟨_, _, grabFuel_latest_of_ok 1 s _ _ (grabLatestStep_success s hloc heven), rfl, rfl,
      ?_, ?_, ?_⟩
    · rw [SGState.setReaderCount_readers]
      rw [Ringbuffer.get_setCount_eq _ _ _ hlen]
    · intro i hi
      rw [SGState.setReaderCount_readers]
      exact Ringbuffer.get_setCount_ne _ _ _ _ (fun h => hi h.symm)
    · rw [release_after_pin s _ hloc hlen hcW]
      exact ⟨rfl, rfl, rfl, rfl, rfl, rfl⟩
  · -- the ring grew since we last mapped it: the first iteration remaps
    -- and retries, the second pins
    have hstep1 : grabLatestStep s = .retry { s with m_local_max_entry := s.info.readers.entries } := by
      have hyes : s.m_local_max_entry ≤ s.info.readers.last := hloc
      simp [grabLatestStep, growReaderMapping, hyes, Ringbuffer.get_num_entries]
    set t : SGState := { s with m_local_max_entry := s.info.readers.entries } with ht
    have htloc : t.info.readers.put_pos < t.m_local_max_entry := hwf.2.1
    have hteven : (t.info.readers.get t.info.readers.put_pos).count % 2 = 0 := heven
    have hgrab : grabReadLock s VersionID.latest =
        .ok (t.setReaderCount t.info.readers.put_pos
              (((t.info.readers.get t.info.readers.put_pos).count + 2) % W32))
          ⟨(t.info.readers.get t.info.readers.put_pos).version, t.info.readers.put_pos,
            (t.info.readers.get t.info.readers.put_pos).current_top,
            (t.info.readers.get t.info.readers.put_pos).filesize⟩ := by
      show grabReadLockFuel 2 s VersionID.latest = _
      have h2 : (2 : Nat) = 1 + 1 := rfl
      rw [h2]
      simp only [grabReadLockFuel, VersionID.latest, hstep1]
      exact grabFuel_latest_of_ok 0 t _ _ (grabLatestStep_success t htloc hteven)
    have htlen : t.info.readers.put_pos < t.info.readers.data.length := hlen
    have htcW : (t.info.readers.get t.info.readers.put_pos).count < W32 := hcW
    refine ⟨_, _, hgrab, rfl, rfl, ?_, ?_, ?_⟩
    · rw [SGState.setReaderCount_readers]
      rw [Ringbuffer.get_setCount_eq _ _ _ htlen]
    · intro i hi
      rw [SGState.setReaderCount_readers]
      exact Ringbuffer.get_setCount_ne _ _ _ _ (fun h => hi h.symm)
    · rw [release_after_pin t _ htloc htlen htcW]
      exact ⟨rfl, rfl, rfl, rfl, rfl, rfl⟩

/-- C2 (witness): the balanced pair on the freshly opened example session
(its newest slot, index 0, has count 0). -/
theorem C2_witness :
    exampleState.info.readers.WF ∧
    (exampleState.info.readers.get exampleState.info.readers.put_pos).count % 2 = 0 ∧
    ∃ s1 lock,
      grabReadLock exampleState VersionID.latest = .ok s1 lock ∧
      lock.m_reader_idx = exampleState.info.readers.put_pos ∧
      lock.m_version =
        (exampleState.info.readers.get exampleState.info.readers.put_pos).version ∧
      (s1.info.readers.get lock.m_reader_idx).count =
        ((exampleState.info.readers.get exampleState.info.readers.put_pos).count + 2) % W32 ∧
      (∀ i, i ≠ lock.m_reader_idx → s1.info.readers.get i = exampleState.info.readers.get i) ∧
      (releaseReadLock s1 lock).info = exampleState.info ∧
      (releaseReadLock s1 lock).m_transact_stage = exampleState.m_transact_stage ∧
      (releaseReadLock s1 lock).m_read_lock = exampleState.m_read_lock ∧
      (releaseReadLock s1 lock).writeMutexHeld = exampleState.writeMutexHeld ∧
      (releaseReadLock s1 lock).groupAttached = exampleState.groupAttached ∧
      (releaseReadLock s1 lock).fileAttached = exampleState.fileAttached :=
  ⟨by decide, by decide, C2_grab_release_noop exampleState (by decide) (by decide)⟩

/-! ### C3: BadVersion on a stale specific-version request -/

/-- Persistent pin failure on a slot that is not the oldest: one loop
iteration raises `BadVersion` with the counter restored. -/
theorem grabSpecificStep_bad_notOldest (s : SGState) (version_id : VersionID)
    (hloc : version_id.index < s.m_local_max_entry)
    (hcW : (s.info.readers.get version_id.index).count < W32)
    (hodd : (s.info.readers.get version_id.index).count % 2 = 1)
    (hnotold : s.info.readers.old_pos ≠ version_id.index) :
    grabSpecificStep s version_id = .bad s := by
  have hno : ¬ s.m_local_max_entry ≤ version_id.index := Nat.not_le.mpr hloc
  simp only [grabSpecificStep, growReaderMapping, hno, if_false, double_inc_odd _ hcW hodd]
  rw [SGState.setReaderCount_self]
  simp [hnotold]

/-- Successful pin on a recycled slot whose version no longer matches: the
pin is released again and `BadVersion` is raised with the counter
restored. -/
theorem grabSpecificStep_bad_version (s : SGState) (version_id : VersionID)
    (hloc : version_id.index < s.m_local_max_entry)
    (hlen : version_id.index < s.info.readers.data.length)
    (hcW : (s.info.readers.get version_id.index).count < W32)
    (heven : (s.info.readers.get version_id.index).count % 2 = 0)
    (hver : (s.info.readers.get version_id.index).version ≠ version_id.version) :
    grabSpecificStep s version_id = .bad s := by
  have hno : ¬ s.m_local_max_entry ≤ version_id.index := Nat.not_le.mpr hloc
  simp only [grabSpecificStep, growReaderMapping, hno, if_false, double_inc_even _ heven]
  have hget : ((s.setReaderCount version_id.index
        (((s.info.readers.get version_id.index).count + 2) % W32)).info.readers.get
        version_id.index)
      = { s.info.readers.get version_id.index with
            count := ((s.info.readers.get version_id.index).count + 2) % W32 } := by
    rw [SGState.setReaderCount_readers]
    exact Ringbuffer.get_setCount_eq _ _ _ hlen
  simp only [hget]
  rw [if_pos hver]
  rw [double_dec_undo _ hcW, SGState.setReaderCount_setReaderCount, SGState.setReaderCount_self]

/-- A decisive first iteration determines `grabReadLockFuel` at any
positive fuel (specific-version branch). -/
theorem grabFuel_specific_of_bad (fuel : Nat) (s s1 : SGState) (version_id : VersionID)
    (hsent : version_id.version ≠ latestSentinel)
    (h : grabSpecificStep s version_id = .bad s1) :
    grabReadLockFuel (fuel + 1) s version_id = .bad s1 := by
  simp [grabReadLockFuel, hsent, h]

/-- C3: a `grab_read_lock` call with a specific (non-LATEST) version token
whose index lies in the mapped ring raises `BadVersion` both when the pin
keeps failing on a slot other than the ring's oldest and when the pin
succeeds but the slot's version differs from the requested one; in either
case the state — in particular every slot's count — is exactly as before
the call, so no pin is leaked. -/
theorem C3_grab_specific_badversion (s : SGState) (version_id : VersionID)
    (hwf : s.info.readers.WF)
    (hsent : version_id.version ≠ latestSentinel)
    (hloc : version_id.index < s.m_local_max_entry)
    (hent : version_id.index < s.info.readers.entries) :
    ((s.info.readers.get version_id.index).count % 2 = 1 →
      s.info.readers.old_pos ≠ version_id.index →
      grabReadLock s version_id = .bad s) ∧
    ((s.info.readers.get version_id.index).count % 2 = 0 →
      (s.info.readers.get version_id.index).version ≠ version_id.version →
      grabReadLock s version_id = .bad s) := by
  have hlen : version_id.index < s.info.readers.data.length := by
    rw [← hwf.1]; exact hent
  have hcW : (s.info.readers.get version_id.index).count < W32 := hwf.2.2.2.2 _ hent
  constructor
  · intro hodd hnotold
    exact grabFuel_specific_of_bad 1 s s version_id hsent
      (grabSpecificStep_bad_notOldest s version_id hloc hcW hodd hnotold)
  · intro heven hver
    exact grabFuel_specific_of_bad 1 s s version_id hsent
      (grabSpecificStep_bad_version s version_id hloc hlen hcW heven hver)

/-! ### Cleanup characterization (for C5 and C1) -/

theorem Ringbuffer.get_setCount_next (rb : Ringbuffer) (p c i : Nat) :
    ((rb.setCount p c).get i).next = (rb.get i).next := by
  rcases eq_or_ne p i with rfl | hne
  · rcases Nat.lt_or_ge p rb.data.length with h | h
    · rw [Ringbuffer.get_setCount_eq _ _ _ h]
    · have hd : (rb.setCount p c).data = rb.data := List.set_eq_of_length_le h
      show ((rb.setCount p c).data.getD p default).next = _
      rw [hd]; rfl
  · rw [Ringbuffer.get_setCount_ne _ _ _ _ hne]

/-- Full characterization of the `cleanup()` loop at any fuel: the loop
frees (count 0 → 1) a chain of pairwise distinct, previously unreferenced
slots starting at `old_pos` and following `next`, never crossing
`put_pos`, touches nothing else, and stops either at `put_pos` or at the
first slot whose count is non-zero (or when the fuel runs out). -/
theorem cleanupFuel_spec (fuel : Nat) :
    ∀ (rb : Ringbuffer), rb.WF →
    ∃ k, k ≤ fuel ∧
      (Ringbuffer.cleanupFuel fuel rb).put_pos = rb.put_pos ∧
      (Ringbuffer.cleanupFuel fuel rb).entries = rb.entries ∧
      (Ringbuffer.cleanupFuel fuel rb).data.length = rb.data.length ∧
      (Ringbuffer.cleanupFuel fuel rb).old_pos = rb.followN rb.old_pos k ∧
      (∀ j, j < k → rb.followN rb.old_pos j ≠ rb.put_pos ∧
        (rb.get (rb.followN rb.old_pos j)).count = 0) ∧
      (∀ j1 j2, j1 < j2 → j2 < k →
        rb.followN rb.old_pos j1 ≠ rb.followN rb.old_pos j2) ∧
      (∀ i, (Ringbuffer.cleanupFuel fuel rb).get i =
        if ∃ j, j < k ∧ rb.followN rb.old_pos j = i then { rb.get i with count := 1 }
        else rb.get i) ∧
      (k = fuel ∨ (Ringbuffer.cleanupFuel fuel rb).old_pos = rb.put_pos ∨
        ((Ringbuffer.cleanupFuel fuel rb).get
          ((Ringbuffer.cleanupFuel fuel rb).old_pos)).count ≠ 0) := by
  induction fuel with
  | zero =>
    intro rb hwf
    refine ⟨0, Nat.le_refl 0, rfl, rfl, rfl, rfl, ?_, ?_, ?_, Or.inl rfl⟩
    · intro j hj; omega
    · intro j1 j2 h1 h2; omega
    · intro i
      have h : ¬ ∃ j, j < 0 ∧ rb.followN rb.old_pos j = i := by
        rintro ⟨j, hj, -⟩; omega
      rw [if_neg h]
      rfl
  | succ fuel ih =>
    intro rb hwf
    by_cases hop : rb.old_pos = rb.put_pos
    · have hres : Ringbuffer.cleanupFuel (fuel + 1) rb = rb := by
        simp [Ringbuffer.cleanupFuel, hop]
      refine ⟨0, Nat.zero_le _, ?_, ?_, ?_, ?_, ?_, ?_, ?_, Or.inr (Or.inl ?_)⟩
      · rw [hres]
      · rw [hres]
      · rw [hres]
      · rw [hres]
        rfl
      · intro j hj; omega
      · intro j1 j2 h1 h2; omega
      · intro i
        have h : ¬ ∃ j, j < 0 ∧ rb.followN rb.old_pos j = i := by
          rintro ⟨j, hj, -⟩; omega
        rw [if_neg h, hres]
      · rw [hres]
        exact hop
    · have holdlen : rb.old_pos < rb.data.length := by
        rw [← hwf.1]; exact hwf.2.2.1
      by_cases hzero : (rb.get rb.old_pos).count = 0
      · -- free the slot at old_pos and advance
        have hone : atomic_one_if_zero (rb.get rb.old_pos).count = (true, 1) := by
          rw [hzero]; exact one_if_zero_zero
        have hg1 : (rb.setCount rb.old_pos 1).get rb.old_pos
            = { rb.get rb.old_pos with count := 1 } :=
          Ringbuffer.get_setCount_eq _ _ _ holdlen
        set rb2 : Ringbuffer :=
          { rb.setCount rb.old_pos 1 with old_pos := rb.step rb.old_pos } with hrb2
        have hres : Ringbuffer.cleanupFuel (fuel + 1) rb = Ringbuffer.cleanupFuel fuel rb2 := by
          show (if rb.old_pos ≠ rb.put_pos then _ else rb) = _
          rw [if_pos hop]
          simp only [hone, if_true]
          congr 1
          rw [hrb2]
          congr 1
          exact Ringbuffer.get_setCount_next rb rb.old_pos 1 rb.old_pos
        -- rb2 is well-formed
        have hnext2 : ∀ i, (rb2.get i).next = (rb.get i).next := by
          intro i
          show ((rb.setCount rb.old_pos 1).get i).next = _
          exact Ringbuffer.get_setCount_next _ _ _ _
        have hget2 : ∀ i, rb2.get i =
            if i = rb.old_pos then { rb.get i with count := 1 } else rb.get i := by
          intro i
          rcases eq_or_ne i rb.old_pos with rfl | hne
          · rw [if_pos rfl]
            exact hg1
          · rw [if_neg hne]
            exact Ringbuffer.get_setCount_ne _ _ _ _ (fun h => hne h.symm)
        have hwf2 : rb2.WF := by
          refine ⟨?_, ?_, ?_, ?_, ?_⟩
          · show rb.entries = (rb.setCount rb.old_pos 1).data.length
            rw [Ringbuffer.setCount_length]
            exact hwf.1
          · exact hwf.2.1
          · show rb.step rb.old_pos < rb.entries
            exact hwf.2.2.2.1 _ hwf.2.2.1
          · intro i hi
            rw [hnext2]
            exact hwf.2.2.2.1 i hi
          · intro i hi
            rw [hget2]
            split
            · show (1 : Nat) < W32
              decide
            · exact hwf.2.2.2.2 i hi
        obtain ⟨k2, hk2, hput2, hent2, hlen2, hold2, hfree2, hdist2, hpt2, hstop2⟩ :=
          ih rb2 hwf2
        -- translate paths in rb2 back to paths in rb
        have hfN : ∀ m x, rb2.followN x m = rb.followN x m :=
          fun m x => Ringbuffer.followN_congr rb2 rb hnext2 m x
        have hshift : ∀ j, rb2.followN rb2.old_pos j = rb.followN rb.old_pos (j + 1) := by
          intro j
          have h1 : rb2.old_pos = rb.step rb.old_pos := rfl
          rw [hfN, h1]
          rfl
        have hPnotold : ∀ m, m < k2 → rb2.followN rb2.old_pos m ≠ rb.old_pos := by
          intro m hm heq
          have hc := (hfree2 m hm).2
          rw [hget2] at hc
          rw [heq] at hc
          simp at hc
        refine ⟨k2 + 1, by omega, ?_, ?_, ?_, ?_, ?_, ?_, ?_, ?_⟩
        · rw [hres, hput2]; rfl
        · rw [hres, hent2]; rfl
        · rw [hres, hlen2]
          show (rb.setCount rb.old_pos 1).data.length = _
          rw [Ringbuffer.setCount_length]
        · rw [hres, hold2, hshift]
        · intro j hj
          cases j with
          | zero => exact ⟨hop, hzero⟩
          | succ m =>
            have hm : m < k2 := by omega
            have h1 := hfree2 m hm
            have hx : rb2.followN rb2.old_pos m = rb.followN rb.old_pos (m + 1) := hshift m
            constructor
            · rw [← hx]
              have : rb2.put_pos = rb.put_pos := rfl
              rw [← this]
              exact h1.1
            · have hno := hPnotold m hm
              have hc := h1.2
              rw [hget2, if_neg] at hc
              · rw [← hx]; exact hc
              · rw [hx] at hno ⊢
                exact hno
        · intro j1 j2 h12 hj2
          cases j1 with
          | zero =>
            cases j2 with
            | zero => omega
            | succ m =>
              have hm : m < k2 := by omega
              have hno := hPnotold m hm
              rw [hshift] at hno
              show rb.followN rb.old_pos 0 ≠ rb.followN rb.old_pos (m + 1)
              exact fun h => hno h.symm
          | succ a =>
            cases j2 with
            | zero => omega
            | succ b =>
              have hab : a < b := by omega
              have hb : b < k2 := by omega
              have := hdist2 a b hab hb
              rw [hshift, hshift] at this
              exact this
        · intro i
          rw [hres, hpt2 i]
          rcases eq_or_ne i rb.old_pos with rfl | hne
          · have hcondR : ∃ j, j < k2 + 1 ∧ rb.followN rb.old_pos j = rb.old_pos :=
              ⟨0, by omega, rfl⟩
            rw [if_pos hcondR]
            split
            · rw [hget2, if_pos rfl]
            · rw [hget2, if_pos rfl]
          · have hCiff : (∃ j, j < k2 ∧ rb2.followN rb2.old_pos j = i) ↔
                (∃ j, j < k2 + 1 ∧ rb.followN rb.old_pos j = i) := by
              constructor
              · rintro ⟨m, hm, hmi⟩
                exact ⟨m + 1, by omega, by rw [← hshift]; exact hmi⟩
              · rintro ⟨j, hj, hji⟩
                cases j with
                | zero => exact absurd hji.symm hne
                | succ m => exact ⟨m, by omega, by rw [hshift]; exact hji⟩
            have hgi : rb2.get i = rb.get i := by
              rw [hget2, if_neg hne]
            by_cases hC : ∃ j, j < k2 ∧ rb2.followN rb2.old_pos j = i
            · rw [if_pos hC, if_pos (hCiff.mp hC), hgi]
            · rw [if_neg hC, if_neg (fun h => hC (hCiff.mpr h)), hgi]
        · rcases hstop2 with h | h | h
          · exact Or.inl (by omega)
          · refine Or.inr (Or.inl ?_)
            rw [hres, h]; rfl
          · refine Or.inr (Or.inr ?_)
            rw [hres]
            exact h
      · -- the probe fails: the counter is restored and the loop stops
        have hone : atomic_one_if_zero (rb.get rb.old_pos).count
            = (false, (rb.get rb.old_pos).count) :=
          one_if_zero_pos _ (hwf.2.2.2.2 _ hwf.2.2.1) hzero
        have hres : Ringbuffer.cleanupFuel (fuel + 1) rb = rb := by
          show (if rb.old_pos ≠ rb.put_pos then _ else rb) = _
          rw [if_pos hop]
          simp only [hone]
          show rb.setCount rb.old_pos ((rb.get rb.old_pos).count) = rb
          exact Ringbuffer.setCount_self rb rb.old_pos
        refine ⟨0, Nat.zero_le _, ?_, ?_, ?_, ?_, ?_, ?_, ?_, Or.inr (Or.inr ?_)⟩
        · rw [hres]
        · rw [hres]
        · rw [hres]
        · rw [hres]
          rfl
        · intro j hj; omega
        · intro j1 j2 h1 h2; omega
        · intro i
          have h : ¬ ∃ j, j < 0 ∧ rb.followN rb.old_pos j = i := by
            rintro ⟨j, hj, -⟩; omega
          rw [if_neg h, hres]
        · rw [hres]
          exact hzero

/-! ### C5: the cleanup loop -/

/-- C5: `cleanup` starts at `old_pos` and frees a chain of slots along
`next` (each freed slot was unreferenced, `count = 0`, and becomes free,
`count = 1`), advancing `old_pos` and never crossing `put_pos`; it stops
at `put_pos` or at the first slot whose count stayed non-zero, so the
current snapshot's slot at `put_pos` is untouched and remains live, and
since every slot is live (even count) or free (odd count),
`live_count + free_count = entries` is preserved. -/
theorem C5_cleanup_trims (rb : Ringbuffer) (hwf : rb.WF)
    (hlive : (rb.get rb.put_pos).count % 2 = 0) :
    ∃ k,
      rb.cleanup.put_pos = rb.put_pos ∧
      rb.cleanup.entries = rb.entries ∧
      rb.cleanup.old_pos = rb.followN rb.old_pos k ∧
      (∀ j, j < k → rb.followN rb.old_pos j ≠ rb.put_pos ∧
        (rb.get (rb.followN rb.old_pos j)).count = 0) ∧
      (∀ i, rb.cleanup.get i =
        if ∃ j, j < k ∧ rb.followN rb.old_pos j = i then { rb.get i with count := 1 }
        else rb.get i) ∧
      (∀ j, j < k → (rb.cleanup.get (rb.followN rb.old_pos j)).count = 1) ∧
      (rb.cleanup.old_pos = rb.put_pos ∨ (rb.cleanup.get rb.cleanup.old_pos).count ≠ 0) ∧
      rb.cleanup.get rb.put_pos = rb.get rb.put_pos ∧
      (rb.cleanup.get rb.cleanup.put_pos).count % 2 = 0 ∧
      ((Finset.range rb.cleanup.entries).filter
          (fun i => (rb.cleanup.get i).count % 2 = 0)).card +
        ((Finset.range rb.cleanup.entries).filter
          (fun i => ¬ (rb.cleanup.get i).count % 2 = 0)).card = rb.cleanup.entries := by
  obtain ⟨k, hk, hput, hent, hlen, hold, hfree, hdist, hpt, hstop⟩ :=
    cleanupFuel_spec (rb.data.length + 1) rb hwf
  have hinrange : ∀ j, rb.followN rb.old_pos j < rb.entries :=
    fun j => Ringbuffer.followN_lt rb hwf.2.2.2.1 j rb.old_pos hwf.2.2.1
  -- the freed chain is injective into the slot indices, so it cannot
  -- exhaust the fuel
  have hkle : k ≤ rb.entries := by
    by_contra hgt
    push_neg at hgt
    have hinj : Function.Injective
        (fun j : Fin k => (⟨rb.followN rb.old_pos j.1, hinrange j.1⟩ : Fin rb.entries)) := by
      intro a b hab
      simp only [Fin.mk.injEq] at hab
      rcases Nat.lt_trichotomy a.1 b.1 with h | h | h
      · exact absurd hab (hdist a.1 b.1 h b.2)
      · exact Fin.ext h
      · exact absurd hab.symm (hdist b.1 a.1 h a.2)
    have := Fintype.card_le_of_injective _ hinj
    simp only [Fintype.card_fin] at this
    omega
  have hkfuel : k ≠ rb.data.length + 1 := by
    have h1 := hwf.1
    omega
  have hnotfreed : ¬ ∃ j, j < k ∧ rb.followN rb.old_pos j = rb.put_pos := by
    rintro ⟨j, hj, hji⟩
    exact (hfree j hj).1 hji
  have hgetput : (Ringbuffer.cleanupFuel (rb.data.length + 1) rb).get rb.put_pos
      = rb.get rb.put_pos := by
    rw [hpt, if_neg hnotfreed]
  simp only [Ringbuffer.cleanup]
  refine ⟨k, hput, hent, hold, hfree, hpt, ?_, ?_, hgetput, ?_, ?_⟩
  · intro j hj
    rw [hpt, if_pos ⟨j, hj, rfl⟩]
  · rcases hstop with h | h | h
    · exact absurd h hkfuel
    · exact Or.inl h
    · exact Or.inr h
  · rw [hput, hgetput]
    exact hlive
  · exact Finset.filter_card_add_filter_neg_card_eq_card _ |>.trans (Finset.card_range _)

/-- C5 (witness): cleanup on the example mid-session ring frees the old
snapshot in slot 0 and stops at `put_pos`. -/
theorem C5_witness :
    exampleRing4.WF ∧
    (exampleRing4.get exampleRing4.put_pos).count % 2 = 0 ∧
    ∃ k,
      exampleRing4.cleanup.put_pos = exampleRing4.put_pos ∧
      exampleRing4.cleanup.entries = exampleRing4.entries ∧
      exampleRing4.cleanup.old_pos = exampleRing4.followN exampleRing4.old_pos k ∧
      (∀ j, j < k → exampleRing4.followN exampleRing4.old_pos j ≠ exampleRing4.put_pos ∧
        (exampleRing4.get (exampleRing4.followN exampleRing4.old_pos j)).count = 0) ∧
      (∀ i, exampleRing4.cleanup.get i =
        if ∃ j, j < k ∧ exampleRing4.followN exampleRing4.old_pos j = i then
          { exampleRing4.get i with count := 1 }
        else exampleRing4.get i) ∧
      (∀ j, j < k →
        (exampleRing4.cleanup.get (exampleRing4.followN exampleRing4.old_pos j)).count = 1) ∧
      (exampleRing4.cleanup.old_pos = exampleRing4.put_pos ∨
        (exampleRing4.cleanup.get exampleRing4.cleanup.old_pos).count ≠ 0) ∧
      exampleRing4.cleanup.get exampleRing4.put_pos = exampleRing4.get exampleRing4.put_pos ∧
      (exampleRing4.cleanup.get exampleRing4.cleanup.put_pos).count % 2 = 0 ∧
      ((Finset.range exampleRing4.cleanup.entries).filter
          (fun i => (exampleRing4.cleanup.get i).count % 2 = 0)).card +
        ((Finset.range exampleRing4.cleanup.entries).filter
          (fun i => ¬ (exampleRing4.cleanup.get i).count % 2 = 0)).card =
        exampleRing4.cleanup.entries :=
  ⟨by decide, by decide, C5_cleanup_trims exampleRing4 (by decide) (by decide)⟩

/-! ### Expansion lemmas (for C6 and C1) -/

namespace Ringbuffer

theorem initSlots_length (k : Nat) :
    ∀ (data : List ReadCount) (i : Nat), (initSlots data i k).length = data.length := by
  induction k with
  | zero => intro data i; rfl
  | succ k ih =>
    intro data i
    show (initSlots (data.set i _) (i + 1) k).length = _
    rw [ih, List.length_set]

theorem getD_initSlots (k : Nat) :
    ∀ (data : List ReadCount) (i : Nat), i + k ≤ data.length → ∀ j,
      (initSlots data i k).getD j default =
        if i ≤ j ∧ j < i + k then
          { version := 1, filesize := 0, current_top := 0, count := 1, next := j + 1 }
        else data.getD j default := by
  induction k with
  | zero =>
    intro data i hik j
    have h : ¬ (i ≤ j ∧ j < i + 0) := by omega
    rw [if_neg h]
    rfl
  | succ k ih =>
    intro data i hik j
    have hilen : i < data.length := by omega
    have hik2 : (i + 1) + k ≤ (data.set i
        { version := 1, filesize := 0, current_top := 0, count := 1, next := i + 1 }).length := by
      rw [List.length_set]; omega
    show (initSlots (data.set i _) (i + 1) k).getD j default = _
    rw [ih _ (i + 1) hik2 j]
    rcases eq_or_ne j i with rfl | hne
    · have h1 : ¬ (j + 1 ≤ j ∧ j < j + 1 + k) := by omega
      have h2 : j ≤ j ∧ j < j + (k + 1) := by omega
      rw [if_neg h1, if_pos h2]
      exact list_getD_set_eq _ _ _ _ hilen
    · have hiff : (i + 1 ≤ j ∧ j < i + 1 + k) ↔ (i ≤ j ∧ j < i + (k + 1)) := by omega
      by_cases hc : i + 1 ≤ j ∧ j < i + 1 + k
      · rw [if_pos hc, if_pos (hiff.mp hc)]
      · rw [if_neg hc, if_neg (fun h => hc (hiff.mpr h))]
        exact list_getD_set_ne _ _ _ _ _ (fun h => hne h.symm)

theorem expand_entries (rb : Ringbuffer) (n : Nat) : (rb.expand_to n).entries = n := rfl

theorem expand_put_pos (rb : Ringbuffer) (n : Nat) : (rb.expand_to n).put_pos = rb.put_pos := rfl

theorem expand_old_pos (rb : Ringbuffer) (n : Nat) : (rb.expand_to n).old_pos = rb.old_pos := rfl

theorem expand_length (rb : Ringbuffer) (n : Nat) (hle : rb.data.length ≤ n) :
    (rb.expand_to n).data.length = n := by
  show ((initSlots (rb.data ++ List.replicate (n - rb.data.length) default) rb.entries
      (n - rb.entries)).set _ _ |>.set _ _).length = n
  rw [List.length_set, List.length_set, initSlots_length, List.length_append,
    List.length_replicate]
  omega

theorem expand_get_put (rb : Ringbuffer) (n : Nat)
    (hlen : rb.data.length = rb.entries) (hput : rb.put_pos < rb.entries)
    (hgrow : rb.entries < n) :
    (rb.expand_to n).get rb.put_pos = { rb.get rb.put_pos with next := rb.entries } := by
  have hinit : rb.entries + (n - rb.entries)
      ≤ (rb.data ++ List.replicate (n - rb.data.length) default).length := by
    rw [List.length_append, List.length_replicate]; omega
  have hne1 : (n - 1 : Nat) ≠ rb.put_pos := by omega
  have hcond : ¬ (rb.entries ≤ rb.put_pos ∧ rb.put_pos < rb.entries + (n - rb.entries)) := by
    omega
  simp only [expand_to, get]
  rw [list_getD_set_eq]
  · rw [list_getD_set_ne _ _ _ _ _ hne1, getD_initSlots _ _ _ hinit, if_neg hcond,
      list_getD_append_replicate]
  · rw [List.length_set, initSlots_length, List.length_append, List.length_replicate]
    omega

theorem expand_get_new (rb : Ringbuffer) (n j : Nat)
    (hlen : rb.data.length = rb.entries) (hput : rb.put_pos < rb.entries)
    (hgrow : rb.entries < n) (hj1 : rb.entries ≤ j) (hj2 : j < n - 1) :
    (rb.expand_to n).get j =
      { version := 1, filesize := 0, current_top := 0, count := 1, next := j + 1 } := by
  have hinit : rb.entries + (n - rb.entries)
      ≤ (rb.data ++ List.replicate (n - rb.data.length) default).length := by
    rw [List.length_append, List.length_replicate]; omega
  have hnep : rb.put_pos ≠ j := by omega
  have hnel : (n - 1 : Nat) ≠ j := by omega
  have hcond : rb.entries ≤ j ∧ j < rb.entries + (n - rb.entries) := by omega
  simp only [expand_to, get]
  rw [list_getD_set_ne _ _ _ _ _ hnep, list_getD_set_ne _ _ _ _ _ hnel,
    getD_initSlots _ _ _ hinit, if_pos hcond]

theorem expand_get_lastnew (rb : Ringbuffer) (n : Nat)
    (hlen : rb.data.length = rb.entries) (hput : rb.put_pos < rb.entries)
    (hgrow : rb.entries < n) :
    (rb.expand_to n).get (n - 1) =
      { version := 1, filesize := 0, current_top := 0, count := 1, next := rb.old_pos } := by
  have hinit : rb.entries + (n - rb.entries)
      ≤ (rb.data ++ List.replicate (n - rb.data.length) default).length := by
    rw [List.length_append, List.length_replicate]; omega
  have hnep : rb.put_pos ≠ (n - 1 : Nat) := by omega
  have hcond : rb.entries ≤ n - 1 ∧ n - 1 < rb.entries + (n - rb.entries) := by omega
  simp only [expand_to, get]
  rw [list_getD_set_ne _ _ _ _ _ hnep, list_getD_set_eq]
  · rw [getD_initSlots _ _ _ hinit, if_pos hcond]
  · rw [initSlots_length, List.length_append, List.length_replicate]
    omega

theorem expand_get_old_slot (rb : Ringbuffer) (n j : Nat)
    (hlen : rb.data.length = rb.entries) (hgrow : rb.entries < n)
    (hj : j < rb.entries) (hne : j ≠ rb.put_pos) :
    (rb.expand_to n).get j = rb.get j := by
  have hinit : rb.entries + (n - rb.entries)
      ≤ (rb.data ++ List.replicate (n - rb.data.length) default).length := by
    rw [List.length_append, List.length_replicate]; omega
  have hnep : rb.put_pos ≠ j := fun h => hne h.symm
  have hnel : (n - 1 : Nat) ≠ j := by omega
  have hcond : ¬ (rb.entries ≤ j ∧ j < rb.entries + (n - rb.entries)) := by omega
  simp only [expand_to, get]
  rw [list_getD_set_ne _ _ _ _ _ hnep, list_getD_set_ne _ _ _ _ _ hnel,
    getD_initSlots _ _ _ hinit, if_neg hcond, list_getD_append_replicate]

/-- Walking forward through the freshly initialized slots. -/
theorem expand_followN_new (rb : Ringbuffer) (n : Nat)
    (hlen : rb.data.length = rb.entries) (hput : rb.put_pos < rb.entries)
    (hgrow : rb.entries < n) :
    ∀ m, rb.entries + m < n → (rb.expand_to n).followN rb.entries m = rb.entries + m := by
  intro m
  induction m with
  | zero => intro h; rfl
  | succ m ih =>
    intro h
    rw [followN_succ_back, ih (by omega)]
    show ((rb.expand_to n).get (rb.entries + m)).next = _
    rw [expand_get_new rb n _ hlen hput hgrow (by omega) (by omega)]
    rfl

/-- From any new slot, the chain reaches `old_pos` in `n - j` steps. -/
theorem expand_chain_to_old (rb : Ringbuffer) (n : Nat)
    (hlen : rb.data.length = rb.entries) (hput : rb.put_pos < rb.entries)
    (hgrow : rb.entries < n) :
    ∀ (m j : Nat), rb.entries ≤ j → j < n → n - j = m →
      (rb.expand_to n).followN j m = rb.old_pos := by
  intro m
  induction m with
  | zero => intro j h1 h2 h3; omega
  | succ m ih =>
    intro j h1 h2 h3
    rcases eq_or_ne j (n - 1) with rfl | hne
    · have hm : m = 0 := by omega
      subst hm
      show (rb.expand_to n).followN ((rb.expand_to n).step (n - 1)) 0 = rb.old_pos
      show (rb.expand_to n).step (n - 1) = rb.old_pos
      show ((rb.expand_to n).get (n - 1)).next = rb.old_pos
      rw [expand_get_lastnew rb n hlen hput hgrow]
    · have hj2 : j < n - 1 := by omega
      show (rb.expand_to n).followN ((rb.expand_to n).step j) m = rb.old_pos
      have hstep : (rb.expand_to n).step j = j + 1 := by
        show ((rb.expand_to n).get j).next = j + 1
        rw [expand_get_new rb n _ hlen hput hgrow h1 hj2]
      rw [hstep]
      exact ih (j + 1) (by omega) (by omega) (by omega)

/-- Paths of the original ring that never step from `put_pos` are
preserved by the expansion. -/
theorem expand_followN_preserved (rb : Ringbuffer) (n : Nat)
    (hlen : rb.data.length = rb.entries) (hgrow : rb.entries < n)
    (hnext : ∀ i, i < rb.entries → (rb.get i).next < rb.entries)
    (hold : rb.old_pos < rb.entries) :
    ∀ m, (∀ i, i < m → rb.followN rb.old_pos i ≠ rb.put_pos) →
      (rb.expand_to n).followN rb.old_pos m = rb.followN rb.old_pos m := by
  intro m
  induction m with
  | zero => intro h; rfl
  | succ m ih =>
    intro h
    have hx : rb.followN rb.old_pos m < rb.entries :=
      followN_lt rb hnext m rb.old_pos hold
    have hxp : rb.followN rb.old_pos m ≠ rb.put_pos := h m (by omega)
    rw [followN_succ_back, ih (fun i hi => h i (by omega))]
    rw [followN_succ_back]
    show ((rb.expand_to n).get (rb.followN rb.old_pos m)).next = _
    rw [expand_get_old_slot rb n _ hlen hgrow hx hxp]
    rfl

end Ringbuffer

/-! ### C6: ring expansion -/

/-- C6: `expand_to(new_entries)` initializes every new slot `i` with
`count = 1` and `next = i + 1`, links the last new slot to `old_pos` and
splices the new chain between `put_pos`'s successor and `old_pos`; after
the expansion, following `next` from `put_pos` reaches `old_pos` in at
most `entries` (= `new_entries`) steps, and — provided the old ring was
one cycle through `old_pos` towards `put_pos` — every slot of the grown
ring is reachable from `put_pos` within `entries` steps, so the ring
remains one closed cycle over all slots. -/
theorem C6_expand_to (rb : Ringbuffer) (n : Nat)
    (hlen : rb.data.length = rb.entries)
    (hput : rb.put_pos < rb.entries)
    (hold : rb.old_pos < rb.entries)
    (hgrow : rb.entries < n)
    (hnext : ∀ i, i < rb.entries → (rb.get i).next < rb.entries)
    (hcyc : ∀ j, j < rb.entries → ∃ m, m < rb.entries ∧ rb.followN rb.old_pos m = j ∧
      ∀ i, i < m → rb.followN rb.old_pos i ≠ rb.put_pos) :
    (rb.expand_to n).entries = n ∧
    (rb.expand_to n).put_pos = rb.put_pos ∧
    (rb.expand_to n).old_pos = rb.old_pos ∧
    (∀ i, rb.entries ≤ i → i < n →
      ((rb.expand_to n).get i).count = 1 ∧
      ((rb.expand_to n).get i).version = 1 ∧
      ((rb.expand_to n).get i).next = if i = n - 1 then rb.old_pos else i + 1) ∧
    ((rb.expand_to n).get rb.put_pos).next = rb.entries ∧
    (∃ k, k ≤ n ∧ (rb.expand_to n).followN rb.put_pos k = rb.old_pos) ∧
    (∀ j, j < n → ∃ m, m ≤ n ∧ (rb.expand_to n).followN rb.put_pos m = j) := by
  have hstepput : (rb.expand_to n).step rb.put_pos = rb.entries := by
    show ((rb.expand_to n).get rb.put_pos).next = rb.entries
    rw [Ringbuffer.expand_get_put rb n hlen hput hgrow]
  refine ⟨rfl, rfl, rfl, ?_, ?_, ?_, ?_⟩
  · intro i hi1 hi2
    rcases eq_or_ne i (n - 1) with rfl | hne
    · rw [Ringbuffer.expand_get_lastnew rb n hlen hput hgrow, if_pos rfl]
      exact ⟨rfl, rfl, rfl⟩
    · rw [Ringbuffer.expand_get_new rb n _ hlen hput hgrow hi1 (by omega), if_neg hne]
      exact ⟨rfl, rfl, rfl⟩
  · rw [Ringbuffer.expand_get_put rb n hlen hput hgrow]
  · refine ⟨(n - rb.entries) + 1, by omega, ?_⟩
    have h1 : (rb.expand_to n).followN rb.put_pos ((n - rb.entries) + 1)
        = (rb.expand_to n).followN rb.entries (n - rb.entries) := by
      show (rb.expand_to n).followN ((rb.expand_to n).step rb.put_pos) (n - rb.entries) = _
      rw [hstepput]
    rw [h1]
    exact Ringbuffer.expand_chain_to_old rb n hlen hput hgrow (n - rb.entries) rb.entries
      (Nat.le_refl _) (by omega) rfl
  · intro j hj
    rcases Nat.lt_or_ge j rb.entries with hjold | hjnew
    · -- an old slot: go around through the new chain to old_pos, then
      -- replay the original path
      obtain ⟨m, hm, hmj, hmput⟩ := hcyc j hjold
      refine ⟨((n - rb.entries) + 1) + m, by omega, ?_⟩
      rw [Ringbuffer.followN_add]
      have h1 : (rb.expand_to n).followN rb.put_pos ((n - rb.entries) + 1) = rb.old_pos := by
        have h2 : (rb.expand_to n).followN rb.put_pos ((n - rb.entries) + 1)
            = (rb.expand_to n).followN rb.entries (n - rb.entries) := by
          show (rb.expand_to n).followN ((rb.expand_to n).step rb.put_pos) (n - rb.entries) = _
          rw [hstepput]
        rw [h2]
        exact Ringbuffer.expand_chain_to_old rb n hlen hput hgrow (n - rb.entries) rb.entries
          (Nat.le_refl _) (by omega) rfl
      rw [h1]
      rw [Ringbuffer.expand_followN_preserved rb n hlen hgrow hnext hold m hmput]
      exact hmj
    · -- a new slot: put_pos links straight into the new chain
      refine ⟨1 + (j - rb.entries), by omega, ?_⟩
      rw [Ringbuffer.followN_add]
      have h1 : (rb.expand_to n).followN rb.put_pos 1 = rb.entries := hstepput
      rw [h1]
      have := Ringbuffer.expand_followN_new rb n hlen hput hgrow (j - rb.entries) (by omega)
      rw [this]
      omega

/-- C6 (witness): growing the full one-slot example ring to 33 slots. -/
theorem C6_witness :
    exampleRing1.data.length = exampleRing1.entries ∧
    exampleRing1.entries < 33 ∧
    (exampleRing1.expand_to 33).entries = 33 ∧
    (exampleRing1.expand_to 33).put_pos = exampleRing1.put_pos ∧
    (exampleRing1.expand_to 33).old_pos = exampleRing1.old_pos ∧
    (∀ i, exampleRing1.entries ≤ i → i < 33 →
      ((exampleRing1.expand_to 33).get i).count = 1 ∧
      ((exampleRing1.expand_to 33).get i).version = 1 ∧
      ((exampleRing1.expand_to 33).get i).next =
        if i = 33 - 1 then exampleRing1.old_pos else i + 1) ∧
    ((exampleRing1.expand_to 33).get exampleRing1.put_pos).next = exampleRing1.entries ∧
    (∃ k, k ≤ 33 ∧ (exampleRing1.expand_to 33).followN exampleRing1.put_pos k =
      exampleRing1.old_pos) ∧
    (∀ j, j < 33 → ∃ m, m ≤ 33 ∧
      (exampleRing1.expand_to 33).followN exampleRing1.put_pos m = j) := by
  have h := C6_expand_to exampleRing1 33 (by decide) (by decide) (by decide) (by decide)
    (by decide)
    (by
      intro j hj
      have h1 : exampleRing1.entries = 1 := rfl
      have hj0 : j = 0 := by omega
      subst hj0
      exact ⟨0, by decide, by decide, fun i hi => absurd hi (by omega)⟩)
  exact ⟨by decide, by decide, h.1, h.2.1, h.2.2.1, h.2.2.2.1, h.2.2.2.2.1, h.2.2.2.2.2.1,
    h.2.2.2.2.2.2⟩

/-! ### Publication lemmas and C1: the commit pipeline -/

namespace Ringbuffer

theorem get_setSlot_eq (rb : Ringbuffer) (i : Nat) (v : ReadCount) (h : i < rb.data.length) :
    (rb.setSlot i v).get i = v :=
  list_getD_set_eq _ _ _ _ h

theorem get_setSlot_ne (rb : Ringbuffer) (i j : Nat) (v : ReadCount) (h : i ≠ j) :
    (rb.setSlot i v).get j = rb.get j :=
  list_getD_set_ne _ _ _ _ _ h

/-- `get_next()` population followed by `use_next()`: the filled slot is
published at `put_pos`. -/
theorem publish_spec (r : Ringbuffer) (ver top fs : Nat) (hn : r.nextIdx < r.data.length) :
    ((r.setSlot r.nextIdx
        { r.get r.nextIdx with current_top := top, filesize := fs, version := ver }).use_next).put_pos
      = r.nextIdx ∧
    (((r.setSlot r.nextIdx
        { r.get r.nextIdx with current_top := top, filesize := fs, version := ver }).use_next).get
        r.nextIdx).version = ver ∧
    (((r.setSlot r.nextIdx
        { r.get r.nextIdx with current_top := top, filesize := fs, version := ver }).use_next).get
        r.nextIdx).current_top = top ∧
    (((r.setSlot r.nextIdx
        { r.get r.nextIdx with current_top := top, filesize := fs, version := ver }).use_next).get
        r.nextIdx).filesize = fs := by
  set v : ReadCount :=
    { r.get r.nextIdx with current_top := top, filesize := fs, version := ver } with hv
  set r3 : Ringbuffer := r.setSlot r.nextIdx v with hr3
  have hget3 : r3.get r.nextIdx = v := get_setSlot_eq _ _ _ hn
  have hput3 : r3.put_pos = r.put_pos := rfl
  have hnext3 : r3.nextIdx = r.nextIdx := by
    show (r3.get r3.put_pos).next = _
    rcases eq_or_ne r.nextIdx r.put_pos with he | hne
    · rw [hput3, ← he, hget3]
      show (r.get r.nextIdx).next = r.nextIdx
      conv_lhs => rw [he]
      rfl
    · rw [hput3, hr3, get_setSlot_ne _ _ _ _ hne]
      rfl
  have hlen3 : r3.data.length = r.data.length := by
    rw [hr3]
    show (r.data.set _ _).length = _
    rw [List.length_set]
  have huse : r3.use_next =
      { r3.setCount r.nextIdx (atomic_dec ((r3.get r.nextIdx).count)) with
          put_pos := (r3.setCount r.nextIdx (atomic_dec ((r3.get r.nextIdx).count))).nextIdx } := by
    show ({ r3.setCount r3.nextIdx (atomic_dec ((r3.get r3.nextIdx).count)) with
        put_pos := (r3.setCount r3.nextIdx (atomic_dec ((r3.get r3.nextIdx).count))).nextIdx }
        : Ringbuffer) = _
    rw [hnext3]
  have hgetA : (r3.setCount r.nextIdx (atomic_dec ((r3.get r.nextIdx).count))).get r.nextIdx
      = { v with count := atomic_dec v.count } := by
    rw [get_setCount_eq _ _ _ (by rw [hlen3]; exact hn), hget3]
  have hnextA : (r3.setCount r.nextIdx (atomic_dec ((r3.get r.nextIdx).count))).nextIdx
      = r.nextIdx := by
    show ((r3.setCount r.nextIdx _).get
        ((r3.setCount r.nextIdx (atomic_dec ((r3.get r.nextIdx).count))).put_pos)).next = _
    have hputA : (r3.setCount r.nextIdx (atomic_dec ((r3.get r.nextIdx).count))).put_pos
        = r.put_pos := rfl
    rw [hputA]
    rcases eq_or_ne r.nextIdx r.put_pos with he | hne
    · rw [← he, hgetA]
      show v.next = r.nextIdx
      rw [hv]
      show (r.get r.nextIdx).next = r.nextIdx
      conv_lhs => rw [he]
      rfl
    · rw [get_setCount_ne _ _ _ _ hne, ← hput3, ← hnext3]
      rfl
  rw [huse]
  refine ⟨hnextA, ?_, ?_, ?_⟩
  · show ((r3.setCount r.nextIdx (atomic_dec ((r3.get r.nextIdx).count))).get r.nextIdx).version
        = ver
    rw [hgetA, hv]
  · show ((r3.setCount r.nextIdx (atomic_dec ((r3.get r.nextIdx).count))).get
        r.nextIdx).current_top = top
    rw [hgetA, hv]
  · show ((r3.setCount r.nextIdx (atomic_dec ((r3.get r.nextIdx).count))).get r.nextIdx).filesize
        = fs
    rw [hgetA, hv]

end Ringbuffer

theorem growReaderMapping_snd_info (s : SGState) (i : Nat) :
    ((growReaderMapping s i).2).info = s.info := by
  simp only [growReaderMapping]
  split <;> rfl

/-- C1: after a successful commit of a write transaction (no replication
plugin, so `do_commit` takes `new_version = current + 1`), the ring slot
at `put_pos` holds the new top ref, the new file size and the new version;
the new version is the previous latest version plus one;
`latest_version_number` equals the new version; `number_of_versions`
equals `new_version − oldest + 1` where `oldest` is the version of the
oldest live slot after trimming (`cleanup`); and
`commit_in_critical_phase` is 0 again. -/
theorem C1_commit_updates (s : SGState) (new_top_ref new_file_size : Nat)
    (hwf : s.info.readers.WF)
    (hI4 : s.info.latest_version_number = s.info.readers.get_last.version) :
    (doCommit s new_top_ref new_file_size).1 = s.info.latest_version_number + 1 ∧
    ((doCommit s new_top_ref new_file_size).2.info.readers.get
        ((doCommit s new_top_ref new_file_size).2.info.readers.put_pos)).version
      = (doCommit s new_top_ref new_file_size).1 ∧
    ((doCommit s new_top_ref new_file_size).2.info.readers.get
        ((doCommit s new_top_ref new_file_size).2.info.readers.put_pos)).current_top
      = new_top_ref ∧
    ((doCommit s new_top_ref new_file_size).2.info.readers.get
        ((doCommit s new_top_ref new_file_size).2.info.readers.put_pos)).filesize
      = new_file_size ∧
    (doCommit s new_top_ref new_file_size).2.info.latest_version_number
      = (doCommit s new_top_ref new_file_size).1 ∧
    (doCommit s new_top_ref new_file_size).2.info.number_of_versions
      = (doCommit s new_top_ref new_file_size).1
        - ((s.info.readers.cleanup).get_oldest).version + 1 ∧
    (doCommit s new_top_ref new_file_size).2.info.commit_in_critical_phase = 0 := by
  have hgrow0 : ((growReaderMapping s (s.info.readers.get_num_entries)).2).info = s.info :=
    growReaderMapping_snd_info s _
  obtain ⟨k, hk, hput1, hent1, hlen1, hold1, hfree1, hdist1, hpt1, hstop1⟩ :=
    cleanupFuel_spec (s.info.readers.data.length + 1) s.info.readers hwf
  have hnotfreed : ¬ ∃ j, j < k ∧
      s.info.readers.followN s.info.readers.old_pos j = s.info.readers.put_pos := by
    rintro ⟨j, hj, hji⟩
    exact (hfree1 j hj).1 hji
  have hRput : (s.info.readers.cleanup).put_pos = s.info.readers.put_pos := hput1
  have hRent : (s.info.readers.cleanup).entries = s.info.readers.entries := hent1
  have hRlen : (s.info.readers.cleanup).data.length = s.info.readers.data.length := hlen1
  have hRgetput : (s.info.readers.cleanup).get s.info.readers.put_pos
      = s.info.readers.get s.info.readers.put_pos := by
    have h : (Ringbuffer.cleanupFuel (s.info.readers.data.length + 1) s.info.readers).get
        s.info.readers.put_pos = _ := hpt1 s.info.readers.put_pos
    rw [if_neg hnotfreed] at h
    exact h
  have hRnext : (s.info.readers.cleanup).nextIdx
      = (s.info.readers.get s.info.readers.put_pos).next := by
    show ((s.info.readers.cleanup).get (s.info.readers.cleanup).put_pos).next = _
    rw [hRput, hRgetput]
  have hnextlt : (s.info.readers.get s.info.readers.put_pos).next < s.info.readers.entries :=
    hwf.2.2.2.1 _ hwf.2.1
  have hRlenE : (s.info.readers.cleanup).data.length = (s.info.readers.cleanup).entries := by
    rw [hRlen, hRent]
    exact hwf.1.symm
  have hRputlt : (s.info.readers.cleanup).put_pos < (s.info.readers.cleanup).entries := by
    rw [hRput, hRent]
    exact hwf.2.1
  have hpub : ((doCommit s new_top_ref new_file_size).2.info.readers.get
        ((doCommit s new_top_ref new_file_size).2.info.readers.put_pos)).version
      = (doCommit s new_top_ref new_file_size).1 ∧
      ((doCommit s new_top_ref new_file_size).2.info.readers.get
        ((doCommit s new_top_ref new_file_size).2.info.readers.put_pos)).current_top
      = new_top_ref ∧
      ((doCommit s new_top_ref new_file_size).2.info.readers.get
        ((doCommit s new_top_ref new_file_size).2.info.readers.put_pos)).filesize
      = new_file_size := by
    simp only [doCommit, lowLevelCommit, Ringbuffer.get_num_entries, growReaderMapping_snd_info]
    by_cases hfull : (s.info.readers.cleanup).is_full = true
    · simp only [if_pos hfull]
      have hnextRE : ((s.info.readers.cleanup).expand_to
          ((s.info.readers.cleanup).entries + 32)).nextIdx = (s.info.readers.cleanup).entries := by
        show (((s.info.readers.cleanup).expand_to ((s.info.readers.cleanup).entries + 32)).get
            ((s.info.readers.cleanup).expand_to
              ((s.info.readers.cleanup).entries + 32)).put_pos).next = _
        rw [Ringbuffer.expand_put_pos,
          Ringbuffer.expand_get_put _ _ hRlenE hRputlt (by omega)]
      have hlenRE : ((s.info.readers.cleanup).expand_to
          ((s.info.readers.cleanup).entries + 32)).data.length
          = (s.info.readers.cleanup).entries + 32 :=
        Ringbuffer.expand_length _ _ (by omega)
      have hnE : ((s.info.readers.cleanup).expand_to
          ((s.info.readers.cleanup).entries + 32)).nextIdx
          < ((s.info.readers.cleanup).expand_to
            ((s.info.readers.cleanup).entries + 32)).data.length := by
        rw [hnextRE, hlenRE]
        omega
      obtain ⟨hp1, hp2, hp3, hp4⟩ := Ringbuffer.publish_spec
        ((s.info.readers.cleanup).expand_to ((s.info.readers.cleanup).entries + 32))
        (s.info.readers.get_last.version + 1) new_top_ref new_file_size hnE
      rw [hp1]
      exact ⟨hp2, hp3, hp4⟩
    · simp only [if_neg hfull]
      have hnR : (s.info.readers.cleanup).nextIdx < (s.info.readers.cleanup).data.length := by
        rw [hRnext, hRlen, ← hwf.1]
        exact hnextlt
      obtain ⟨hp1, hp2, hp3, hp4⟩ := Ringbuffer.publish_spec (s.info.readers.cleanup)
        (s.info.readers.get_last.version + 1) new_top_ref new_file_size hnR
      rw [hp1]
      exact ⟨hp2, hp3, hp4⟩
  refine ⟨?_, hpub.1, hpub.2.1, hpub.2.2, ?_, ?_, ?_⟩
  · show s.info.readers.get_last.version + 1 = s.info.latest_version_number + 1
    rw [hI4]
  · rfl
  · show s.info.readers.get_last.version + 1
        - (((growReaderMapping s (s.info.readers.get_num_entries)).2).info.readers.cleanup.get_oldest).version
        + 1 = _
    rw [hgrow0]
    rfl
  · rfl

/-- C1 (witness): the first commit on the freshly opened example session
(version 1 → 2). -/
theorem C1_witness :
    exampleState.info.readers.WF ∧
    exampleState.info.latest_version_number = exampleState.info.readers.get_last.version ∧
    (doCommit exampleState 48 128).1 = exampleState.info.latest_version_number + 1 ∧
    ((doCommit exampleState 48 128).2.info.readers.get
        ((doCommit exampleState 48 128).2.info.readers.put_pos)).version
      = (doCommit exampleState 48 128).1 ∧
    ((doCommit exampleState 48 128).2.info.readers.get
        ((doCommit exampleState 48 128).2.info.readers.put_pos)).current_top = 48 ∧
    ((doCommit exampleState 48 128).2.info.readers.get
        ((doCommit exampleState 48 128).2.info.readers.put_pos)).filesize = 128 ∧
    (doCommit exampleState 48 128).2.info.latest_version_number
      = (doCommit exampleState 48 128).1 ∧
    (doCommit exampleState 48 128).2.info.number_of_versions
      = (doCommit exampleState 48 128).1
        - ((exampleState.info.readers.cleanup).get_oldest).version + 1 ∧
    (doCommit exampleState 48 128).2.info.commit_in_critical_phase = 0 := by
  have h := C1_commit_updates exampleState 48 128 (by decide) (by decide)
  exact ⟨by decide, by decide, h.1, h.2.1, h.2.2.1, h.2.2.2.1, h.2.2.2.2.1, h.2.2.2.2.2.1,
    h.2.2.2.2.2.2⟩

/-- C3 (witness): on the example session, requesting version 1 at the
free slot 1 (count 1, not the oldest) and requesting version 99 at the
live slot 0 both raise `BadVersion` without changing the state. -/
theorem C3_witness :
    grabReadLock exampleState ⟨1, 1⟩ = .bad exampleState ∧
    grabReadLock exampleState ⟨99, 0⟩ = .bad exampleState :=
  ⟨(C3_grab_specific_badversion exampleState ⟨1, 1⟩ (by decide) (by decide) (by decide)
      (by decide)).1 (by decide) (by decide),
   (C3_grab_specific_badversion exampleState ⟨99, 0⟩ (by decide) (by decide) (by decide)
      (by decide)).2 (by decide) (by decide)⟩

end RealmShared
